import Mathlib

/-!
Verification development for the meadstats API (src/app/app.py, src/app/models.py,
src/meadstatsapi/untappd_api.py).

The embedding models:
  * the aggregation/grouping engine (safe_mean, the linear-scan group folds of the
    dayofweek / timeofday / month / year / countries endpoints, the /graph timeline),
  * country-code resolution (COUNTRY_CODE_MAPPING_TABLE + get_country_code, with the
    external pycountry ISO-name lookup abstracted as a `String → Option String`),
  * the sync reconciler (update_socketio, update_beers_from_offset, handle_beer,
    update_friends_from_offset, handle_friend) over an explicit relational Store,
    with the external Untappd data source abstracted as offset/limit-indexed pages
    (`none` models a raised fetch exception) and a log of the page fetches performed,
  * the read-only query endpoints, for the unknown-username behaviour.

Machine floats of the source (ratings, abv, coordinates) are modelled as exact
rationals: the only arithmetic performed on them is the arithmetic mean.
-/

set_option maxHeartbeats 1000000

namespace Meadstats

/-- Naive timestamp as stored by the app: `models.py` uses `DateTime(timezone=False)`
and `handle_beer` strips the timezone after parsing (app.py lines 767-771). -/
structure DateTime where
  year : Nat
  month : Nat
  day : Nat
  hour : Nat
  minute : Nat
  second : Nat
deriving DecidableEq, Repr

/-- Lexicographic order on naive timestamps (the order `ORDER BY first_had ASC` uses). -/
def dtLE (a b : DateTime) : Bool :=
  a.year < b.year || (a.year == b.year && (a.month < b.month ||
    (a.month == b.month && (a.day < b.day || (a.day == b.day &&
      (a.hour < b.hour || (a.hour == b.hour && (a.minute < b.minute ||
        (a.minute == b.minute && a.second ≤ b.second)))))))))

/-- The calendar-day part of a timestamp. -/
def dayT (d : DateTime) : Nat × Nat × Nat := (d.year, d.month, d.day)

/-- Lexicographic order on calendar days. -/
def dayLE (a b : Nat × Nat × Nat) : Bool :=
  a.1 < b.1 || (a.1 == b.1 && (a.2.1 < b.2.1 || (a.2.1 == b.2.1 && a.2.2 ≤ b.2.2)))

/-- Sakamoto's table, used to model Python's `datetime.isoweekday`. -/
def sakamotoTable : List Nat := [0, 3, 2, 5, 0, 3, 5, 1, 4, 6, 2, 4]

/-- Model of Python's `datetime.isoweekday()` (Monday = 1 .. Sunday = 7), computed by
Sakamoto's method; `app.py` line 516 calls the library function. -/
def isoweekday (d : DateTime) : Nat :=
  let y := if d.month < 3 then d.year - 1 else d.year
  let w := (y + y / 4 - y / 100 + y / 400 + sakamotoTable.getD (d.month - 1) 0 + d.day) % 7
  if w == 0 then 7 else w

/-- ASCII lower-casing of one character, modelling Python's `str.lower` and SQL
`lower` on the ASCII data the app handles. -/
def lowerChar : Char → Char
  | 'A' => 'a' | 'B' => 'b' | 'C' => 'c' | 'D' => 'd' | 'E' => 'e' | 'F' => 'f'
  | 'G' => 'g' | 'H' => 'h' | 'I' => 'i' | 'J' => 'j' | 'K' => 'k' | 'L' => 'l'
  | 'M' => 'm' | 'N' => 'n' | 'O' => 'o' | 'P' => 'p' | 'Q' => 'q' | 'R' => 'r'
  | 'S' => 's' | 'T' => 't' | 'U' => 'u' | 'V' => 'v' | 'W' => 'w' | 'X' => 'x'
  | 'Y' => 'y' | 'Z' => 'z' | c => c

/-- ASCII upper-casing of one character, modelling Python's `str.upper`. -/
def upperChar : Char → Char
  | 'a' => 'A' | 'b' => 'B' | 'c' => 'C' | 'd' => 'D' | 'e' => 'E' | 'f' => 'F'
  | 'g' => 'G' | 'h' => 'H' | 'i' => 'I' | 'j' => 'J' | 'k' => 'K' | 'l' => 'L'
  | 'm' => 'M' | 'n' => 'N' | 'o' => 'O' | 'p' => 'P' | 'q' => 'Q' | 'r' => 'R'
  | 's' => 'S' | 't' => 'T' | 'u' => 'U' | 'v' => 'V' | 'w' => 'W' | 'x' => 'X'
  | 'y' => 'Y' | 'z' => 'Z' | c => c

/-- ASCII `str.lower`. -/
def lowerStr (s : String) : String := String.mk (s.data.map lowerChar)

/-- ASCII `str.upper`. -/
def upperStr (s : String) : String := String.mk (s.data.map upperChar)

/-- Model of `safe_mean` (app.py lines 463-465): drop the 0 ratings, then the
arithmetic mean, or 0 when nothing is left. -/
def safe_mean (data : List Rat) : Rat :=
  let d := data.filter (fun x => x != 0)
  if d.length > 0 then d.sum / (d.length : Rat) else 0

/-- The fixed override table of `app.py` lines 468-495 (names that diverge from the
ISO standard-name list). -/
def COUNTRY_CODE_MAPPING_TABLE : List (String × String) :=
  [("Aland Islands", "ax"),
   ("Bolivia", "bo"),
   ("China / People's Republic of China", "cn"),
   ("England", "gb"),
   ("Ivory Coast", "ci"),
   ("Czech Republic", "cz"),
   ("Democratic Republic of the Congo", "cd"),
   ("Kosovo", "xk"),
   ("Laos", "la"),
   ("Republic of Macedonia", "mk"),
   ("Macau", "mo"),
   ("Moldova", "md"),
   ("Palestinian Territories", "ps"),
   ("Principality of Monaco", "mc"),
   ("Northern Ireland", "gb"),
   ("Republic of Congo", "cg"),
   ("Russia", "ru"),
   ("Scotland", "gb"),
   ("South Korea", "kr"),
   ("Surinam", "sr"),
   ("Taiwan", "tw"),
   ("Tanzania", "tz"),
   ("United States Virgin Islands", "vi"),
   ("Venezuela", "ve"),
   ("Vietnam", "vn"),
   ("Wales", "gb")]

/-- Result of country resolution: the code, plus whether the failure diagnostic
(`app.logger.error`, app.py line 505) fired. -/
structure CountryCodeResult where
  code : String
  diagnostic : Bool
deriving DecidableEq, Repr

/-- Model of `get_country_code` (app.py lines 497-506). The external pycountry
standard-name lookup is the black-box argument `iso`, returning the upper-case
alpha-2 code of an exact ISO standard short name, `none` when the name is not in the
ISO list. All values of the override table are non-empty, so the source's truthiness
test on `COUNTRY_CODE_MAPPING_TABLE.get(country)` is exact-match presence. -/
def get_country_code (iso : String → Option String) (country : String) : CountryCodeResult :=
  match COUNTRY_CODE_MAPPING_TABLE.lookup country with
  | some c => { code := c, diagnostic := false }
  | none =>
    match iso country with
    | some a2 => { code := lowerStr a2, diagnostic := false }
    | none => { code := "", diagnostic := true }

/-- Modelled from the spec: the pycountry ISO standard-name table (an external
library, a black box to this repository). A small representative fragment of the
real list of ISO short names with their alpha-2 codes; fictitious names such as
"Atlantis" are not ISO names and are absent. -/
def pycountryNames : String → Option String := fun n =>
  [("Norway", "NO"), ("Sweden", "SE"), ("Germany", "DE"), ("France", "FR"),
   ("Belgium", "BE"), ("United States", "US"), ("Netherlands", "NL")].lookup n

/-! ## The record store (models.py) -/

/-- A `users` row (models.py lines 11-52). -/
structure StUser where
  id : Nat
  user_name : String
  first_name : String
  last_name : String
  avatar : String
  avatar_hd : String
  total_badges : Nat
  total_friends : Nat
  total_checkins : Nat
  total_beers : Nat
  access_token : String
  api_request_count : Nat
  last_update : Option DateTime
deriving DecidableEq, Repr

/-- A `breweries` row (models.py lines 84-104). -/
structure StBrewery where
  id : Nat
  name : String
  label : String
  country : String
  city : String
  state : String
  latitude : Rat
  longitude : Rat
deriving DecidableEq, Repr

/-- A `beers` row (models.py lines 140-159); the brewery relation is the non-null
foreign key `brewery_id`. -/
structure StBeer where
  id : Nat
  name : String
  label : String
  rating : Rat
  abv : Rat
  brewery_id : Nat
  style : String
deriving DecidableEq, Repr

/-- A `checkins` row (models.py lines 173-191); `beer_id` and `user_id` are non-null
foreign keys. -/
structure StCheckin where
  id : Nat
  beer_id : Nat
  user_id : Nat
  count : Nat
  rating : Rat
  first_had : DateTime
deriving DecidableEq, Repr

/-- A `friendships` row (models.py lines 66-81): the source hash is the primary key,
the two user references are non-null foreign keys. -/
structure StFriendship where
  hash : String
  user1_id : Nat
  user2_id : Nat
deriving DecidableEq, Repr

/-- The relational store; each table is its list of rows in insertion order. -/
structure Store where
  users : List StUser
  breweries : List StBrewery
  beers : List StBeer
  checkins : List StCheckin
  friendships : List StFriendship
deriving DecidableEq, Repr

/-! ## Raw payloads from the external data source (untappd_api.py, a black box) -/

/-- The `stats` object of a user-info payload. -/
structure RawStats where
  total_badges : Nat
  total_friends : Nat
  total_checkins : Nat
  total_beers : Nat
deriving DecidableEq, Repr

/-- A user-info payload, as read by `add_user` / `update_user` (app.py 127-159). -/
structure RawUser where
  uid : Nat
  user_name : String
  first_name : String
  last_name : String
  user_avatar : String
  user_avatar_hd : String
  stats : RawStats
deriving DecidableEq, Repr

/-- The `brewery` object of a beer-checkin record (app.py 177-187). -/
structure RawBrewery where
  brewery_id : Nat
  brewery_name : String
  brewery_label : String
  country_name : String
  brewery_city : String
  brewery_state : String
  lat : Rat
  lng : Rat
deriving DecidableEq, Repr

/-- The `beer` object of a beer-checkin record (app.py 161-175). -/
structure RawBeerInfo where
  bid : Nat
  beer_name : String
  beer_label : String
  rating_score : Rat
  beer_abv : Rat
  beer_style : String
deriving DecidableEq, Repr

/-- A beer-checkin record of a `user_beers` page (app.py 753-786). `first_had` is
carried already parsed and timezone-stripped, as `handle_beer` stores it. -/
structure RawBeer where
  brewery : RawBrewery
  beer : RawBeerInfo
  first_checkin_id : Nat
  count : Nat
  rating_score : Rat
  first_had : DateTime
deriving DecidableEq, Repr

/-- The `user` object of a friend record (app.py 811-829). -/
structure RawFriendUser where
  uid : Nat
  user_name : String
  first_name : String
  last_name : String
  user_avatar : String
deriving DecidableEq, Repr

/-- A friend record of a `user_friends` page. -/
structure RawFriend where
  user : RawFriendUser
  friendship_hash : String
deriving DecidableEq, Repr

/-- The external data source: pages indexed by (offset, limit); `none` models the
fetch raising (network/HTTP failure), which app.py catches with a bare `except`. -/
structure DataSource where
  beers : Nat → Nat → Option (List RawBeer)
  friends : Nat → Nat → Option (List RawFriend)

/-! ## Store operations (app.py) -/

/-- Replace the first element satisfying `p` (an ORM object mutation followed by a
commit: the matched row is updated in place). -/
def replaceFirst (p : α → Bool) (f : α → α) : List α → List α
  | [] => []
  | x :: xs => if p x then f x :: xs else x :: replaceFirst p f xs

/-- Model of `get_user_from_db` (app.py 319-322): first user whose name matches
case-insensitively. -/
def get_user_from_db (st : Store) (username : String) : Option StUser :=
  st.users.find? (fun u => lowerStr u.user_name == lowerStr username)

/-- Model of `add_user` (app.py 127-146). -/
def add_user (st : Store) (ru : RawUser) (access_token : String) : Store × StUser :=
  let u : StUser :=
    { id := ru.uid
      user_name := ru.user_name
      first_name := ru.first_name
      last_name := ru.last_name
      avatar := ru.user_avatar
      avatar_hd := ru.user_avatar_hd
      total_badges := ru.stats.total_badges
      total_friends := ru.stats.total_friends
      total_checkins := ru.stats.total_checkins
      total_beers := ru.stats.total_beers
      access_token := access_token
      api_request_count := 0
      last_update := none }
  ({ st with users := st.users ++ [u] }, u)

/-- The field updates `update_user` performs (app.py 148-159): mutable profile
fields and the four totals; id, user name, token and last_update are untouched. -/
def updatedUser (u : StUser) (ru : RawUser) : StUser :=
  { u with
      first_name := ru.first_name
      last_name := ru.last_name
      avatar := ru.user_avatar
      avatar_hd := ru.user_avatar_hd
      total_badges := ru.stats.total_badges
      total_friends := ru.stats.total_friends
      total_checkins := ru.stats.total_checkins
      total_beers := ru.stats.total_beers }

/-- Model of `update_user` (app.py 148-159), a row update keyed by the found user's
primary key. -/
def update_user (st : Store) (u : StUser) (ru : RawUser) : Store × StUser :=
  ({ st with users := replaceFirst (fun v => v.id == u.id) (fun v => updatedUser v ru) st.users },
   updatedUser u ru)

/-- Model of `add_brewery` (app.py 177-192). -/
def add_brewery (st : Store) (rb : RawBrewery) : Store × StBrewery :=
  let b : StBrewery :=
    { id := rb.brewery_id
      name := rb.brewery_name
      label := rb.brewery_label
      country := rb.country_name
      city := rb.brewery_city
      state := rb.brewery_state
      latitude := rb.lat
      longitude := rb.lng }
  ({ st with breweries := st.breweries ++ [b] }, b)

/-- Model of `add_beer` (app.py 161-175). -/
def add_beer (st : Store) (ri : RawBeerInfo) (brewery : StBrewery) : Store × StBeer :=
  let b : StBeer :=
    { id := ri.bid
      name := ri.beer_name
      label := ri.beer_label
      rating := ri.rating_score
      abv := ri.beer_abv
      brewery_id := brewery.id
      style := ri.beer_style }
  ({ st with beers := st.beers ++ [b] }, b)

/-- The find-or-create of the brewery (app.py 754-757). -/
def breweryPass (st : Store) (rb : RawBrewery) : Store × StBrewery :=
  match st.breweries.find? (fun b => b.id == rb.brewery_id) with
  | some b => (st, b)
  | none => add_brewery st rb

/-- The find-or-create of the beer (app.py 759-762). -/
def beerPass (st : Store) (ri : RawBeerInfo) (brewery : StBrewery) : Store × StBeer :=
  match st.beers.find? (fun b => b.id == ri.bid) with
  | some b => (st, b)
  | none => add_beer st ri brewery

/-- Model of `handle_beer` (app.py 753-786): find-or-create the brewery, then the
beer, then the checkin keyed by `first_checkin_id`; an already-present checkin id
returns `false` without inserting a checkin. -/
def handle_beer (st : Store) (user_id : Nat) (rb : RawBeer) : Store × Bool :=
  let p1 := breweryPass st rb.brewery
  let p2 := beerPass p1.1 rb.beer p1.2
  match p2.1.checkins.find? (fun c => c.id == rb.first_checkin_id) with
  | some _ => (p2.1, false)
  | none =>
    let c : StCheckin :=
      { id := rb.first_checkin_id
        beer_id := p2.2.id
        user_id := user_id
        count := rb.count
        rating := rb.rating_score
        first_had := rb.first_had }
    ({ p2.1 with checkins := p2.1.checkins ++ [c] }, true)

/-- The per-page record loop of `update_beers_from_offset` (app.py 713-717): process
records in order, stopping at the first `handle_beer` returning `false`. -/
def processBeers (items : List RawBeer) (user_id : Nat) (st : Store) : Store × Bool :=
  match items with
  | [] => (st, true)
  | rb :: rest =>
    let r := handle_beer st user_id rb
    if r.2 then processBeers rest user_id r.1 else (r.1, false)

/-- The placeholder user `handle_friend` inserts for a newly-discovered friend
(app.py 813-832): zeroed totals, no credential; the stored last name is the first
character of the raw last name (`raw_friend["user"]["last_name"][0]`). -/
def friendUser (rfu : RawFriendUser) : StUser :=
  { id := rfu.uid
    user_name := rfu.user_name
    first_name := rfu.first_name
    last_name := rfu.last_name.take 1
    avatar := rfu.user_avatar
    avatar_hd := rfu.user_avatar
    total_badges := 0
    total_friends := 0
    total_checkins := 0
    total_beers := 0
    access_token := ""
    api_request_count := 0
    last_update := none }

/-- The duplicate test of `handle_friend` (app.py 834-839): the row links the same
two users in either ordering — the source hash plays no part in it. -/
def friendshipMatches (user_id uid : Nat) (f : StFriendship) : Bool :=
  (f.user1_id == user_id && f.user2_id == uid) ||
  (f.user2_id == user_id && f.user1_id == uid)

/-- The find-or-create of the friend as a user (app.py 811-832). -/
def friendUserPass (st : Store) (rf : RawFriend) : Store :=
  match st.users.find? (fun u => u.id == rf.user.uid) with
  | some _ => st
  | none => { st with users := st.users ++ [friendUser rf.user] }

/-- Model of `handle_friend` (app.py 810-849): find-or-create the friend user, then
find-or-create the friendship, checking both orderings of the pair; always returns
`true`. -/
def handle_friend (st : Store) (user_id : Nat) (rf : RawFriend) : Store × Bool :=
  let st1 := friendUserPass st rf
  match st1.friendships.find? (friendshipMatches user_id rf.user.uid) with
  | some _ => (st1, true)
  | none =>
    ({ st1 with friendships :=
        st1.friendships ++ [{ hash := rf.friendship_hash, user1_id := user_id, user2_id := rf.user.uid }] },
     true)

/-- The per-page record loop of `update_friends_from_offset` (app.py 804-808). -/
def processFriends (items : List RawFriend) (user_id : Nat) (st : Store) : Store × Bool :=
  match items with
  | [] => (st, true)
  | rf :: rest =>
    let r := handle_friend st user_id rf
    if r.2 then processFriends rest user_id r.1 else (r.1, false)

/-- Which kind of page a fetch requested (the `action` label of the progress events). -/
inductive Action where
  | checkins
  | friends
deriving DecidableEq, Repr

/-- A record of one page fetch performed against the data source: the phase, the
offset and the limit argument passed to the API client. -/
structure FetchEvent where
  action : Action
  offset : Nat
  limit : Nat
deriving DecidableEq, Repr

/-- Model of `update_beers_from_offset` (app.py 699-717): fetch one beer page with
limit 50; a raised fetch returns `false` with the store untouched; otherwise process
the page's records. The progress emission is observational and not modelled;
`beer_count` is used only by it. -/
def update_beers_from_offset (src : DataSource) (offset beer_count user_id : Nat)
    (st : Store) : Store × Bool × FetchEvent :=
  let ev : FetchEvent := { action := Action.checkins, offset := offset, limit := 50 }
  let _ := beer_count
  match src.beers offset 50 with
  | none => (st, false, ev)
  | some items =>
    let r := processBeers items user_id st
    (r.1, r.2, ev)

/-- Model of `update_friends_from_offset` (app.py 788-808): fetch one friend page —
the source passes limit 50 to `user_friends` (app.py line 798) — and process it. -/
def update_friends_from_offset (src : DataSource) (offset friend_count user_id : Nat)
    (st : Store) : Store × Bool × FetchEvent :=
  let ev : FetchEvent := { action := Action.friends, offset := offset, limit := 50 }
  let _ := friend_count
  match src.friends offset 50 with
  | none => (st, false, ev)
  | some items =>
    let r := processFriends items user_id st
    (r.1, r.2, ev)

/-- Python's `range(start, stop, step)` for positive `step`. -/
def pyRange (start stop step : Nat) : List Nat :=
  List.range' start ((stop - start + step - 1) / step) step

/-- A `for offset in range(...)` loop with `break` on a falsy page result
(app.py 678-690), returning the final store and the log of fetches performed. -/
def runPages (f : Nat → Store → Store × Bool × FetchEvent) :
    List Nat → Store → Store × List FetchEvent
  | [], st => (st, [])
  | o :: os, st =>
    let r := f o st
    if r.2.1 then
      let rest := runPages f os r.1
      (rest.1, r.2.2 :: rest.2)
    else (r.1, [r.2.2])

/-- Update the synced user's `last_update` (app.py 692-693), a row update keyed by
the user's primary key. -/
def set_last_update (st : Store) (user_id : Nat) (now : DateTime) : Store :=
  { st with users :=
      replaceFirst (fun u => u.id == user_id) (fun u => { u with last_update := some now }) st.users }

/-- The find-or-create-or-update of the target user at the start of a sync run
(app.py 669-674): add with empty credential when absent, else update the mutable
profile fields in place. -/
def syncUser (raw_user : RawUser) (username : String) (st : Store) : Store × StUser :=
  match get_user_from_db st username with
  | none => add_user st raw_user ""
  | some u => update_user st u raw_user

/-- Model of the sync run driven by `update_socketio` (app.py 652-697), from the
point where the target user's profile payload `raw_user` has been fetched: find the
local user by name (add with empty credential when absent, else update profile
fields in place), page through beers in steps of 50 breaking on a falsy page result,
then page through friends in steps of 25 likewise, then set `last_update := now`.
Returns the final store and the fetch log (beer fetches then friend fetches). -/
def update_socketio (src : DataSource) (raw_user : RawUser) (username : String)
    (now : DateTime) (st : Store) : Store × List FetchEvent :=
  let p1 := syncUser raw_user username st
  let user := p1.2
  let beer_count := user.total_beers
  let rb := runPages (fun o s => update_beers_from_offset src o beer_count user.id s)
      (pyRange 0 beer_count 50) p1.1
  let friend_count := user.total_friends
  let rf := runPages (fun o s => update_friends_from_offset src o friend_count user.id s)
      (pyRange 0 friend_count 25) rb.1
  (set_last_update rf.1 user.id now, rb.2 ++ rf.2)

/-! ## The aggregation engine (the grouping loops of app.py 330-650)

Each of the dayofweek / timeofday / month / year / countries endpoints runs the same
linear-scan fold over the user's checkins: find the group with the record's key and
bump its count and rating sample, else append a fresh group (the `for ... else`
loops of app.py); then each group's `averageRating` is the zero-filtered mean of its
sample. The fold is defined once, over the joined row view a query returns. -/

/-- The joined row view the aggregation endpoints consume: the checkin's timestamp
and rating, and the brewery country reached through `checkin.beer.brewery`. -/
structure AggCheckin where
  first_had : DateTime
  rating : Rat
  country : String
deriving DecidableEq, Repr

/-- An accumulating group of the linear-scan fold: key, count, and the rating
sample list in arrival order. -/
structure Group (K : Type) where
  key : K
  count : Nat
  ratings : List Rat
deriving DecidableEq, Repr

/-- One step of the linear-scan fold: the `for x in groups: ... else: append` body.
The first group with a matching key gets `count += 1` and the rating appended; when
none matches a fresh group is appended at the end. -/
def addToGroups {K : Type} [DecidableEq K] (k : K) (r : Rat) :
    List (Group K) → List (Group K)
  | [] => [{ key := k, count := 1, ratings := [r] }]
  | g :: gs =>
    if g.key = k then { key := g.key, count := g.count + 1, ratings := g.ratings ++ [r] } :: gs
    else g :: addToGroups k r gs

/-- The whole grouping loop over the checkins, in input order. -/
def groupFold {K : Type} [DecidableEq K] (key : AggCheckin → K) (cs : List AggCheckin) :
    List (Group K) :=
  cs.foldl (fun gs c => addToGroups (key c) c.rating gs) []

/-- A finished group as the endpoints return it: the rating samples replaced by
their `safe_mean`. -/
structure FinalGroup (K : Type) where
  key : K
  count : Nat
  averageRating : Rat
deriving DecidableEq, Repr

/-- The finishing pass of each endpoint: `averageRating = safe_mean(ratings)` and
the sample list dropped. -/
def finalizeGroups {K : Type} (gs : List (Group K)) : List (FinalGroup K) :=
  gs.map (fun g => { key := g.key, count := g.count, averageRating := safe_mean g.ratings })

/-- The dayofweek grouping (app.py 508-535): key = ISO weekday of `first_had`. -/
def dayofweekGroups (cs : List AggCheckin) : List (FinalGroup Nat) :=
  finalizeGroups (groupFold (fun c => isoweekday c.first_had) cs)

/-- The timeofday grouping (app.py 537-564): key = hour of `first_had`. -/
def timeofdayGroups (cs : List AggCheckin) : List (FinalGroup Nat) :=
  finalizeGroups (groupFold (fun c => c.first_had.hour) cs)

/-- The month grouping (app.py 566-593): key = calendar month. -/
def monthGroups (cs : List AggCheckin) : List (FinalGroup Nat) :=
  finalizeGroups (groupFold (fun c => c.first_had.month) cs)

/-- The year grouping (app.py 595-622): key = calendar year. -/
def yearGroups (cs : List AggCheckin) : List (FinalGroup Nat) :=
  finalizeGroups (groupFold (fun c => c.first_had.year) cs)

/-- A finished country group (app.py 330-383): name, count, resolved code, and the
average over the group's checkin ratings (zero-filtered, 0 when empty — the inline
loop of lines 367-377 computes exactly `safe_mean`). -/
structure CountryGroup where
  name : String
  count : Nat
  code : String
  average_rating : Rat
deriving DecidableEq, Repr

/-- The countries grouping (app.py 330-383): groups keyed by the free-text brewery
country name; the code is resolved from the group's name and upper-cased (the
map.json membership test only logs). -/
def countryGroups (iso : String → Option String) (cs : List AggCheckin) :
    List CountryGroup :=
  (groupFold (fun c => c.country) cs).map (fun g =>
    { name := g.key
      count := g.count
      code := upperStr (get_country_code iso g.key).code
      average_rating := safe_mean g.ratings })

/-! ## The timeline aggregation (/graph, app.py 624-650) -/

/-- One timeline entry: the `year/month/day` string key, the running cumulative
total as of the last checkin seen on that day, and the per-day count. -/
structure DateEntry where
  date : String
  count : Nat
  countDay : Nat
deriving DecidableEq, Repr

/-- One decimal digit as a character. -/
def digitChar : Nat → Char
  | 0 => '0' | 1 => '1' | 2 => '2' | 3 => '3' | 4 => '4'
  | 5 => '5' | 6 => '6' | 7 => '7' | 8 => '8' | _ => '9'

/-- Decimal digits, most significant first, with explicit fuel (any fuel above the
digit count gives the same list). -/
def natDigitsAux : Nat → Nat → List Char
  | 0, _ => []
  | fuel + 1, n =>
    if n < 10 then [digitChar n]
    else natDigitsAux fuel (n / 10) ++ [digitChar (n % 10)]

/-- Decimal digits of a natural number, most significant first (the rendering of an
`int` inside a Python f-string). -/
def natDigits (n : Nat) : List Char := natDigitsAux (n + 1) n

/-- The date key built by app.py line 635:
`f"{first_had.year}/{first_had.month}/{first_had.day}"`. -/
def dateStr (d : DateTime) : String :=
  String.mk (natDigits d.year ++ '/' :: natDigits d.month ++ '/' :: natDigits d.day)

/-- One step of the timeline loop (app.py 638-646): the entry with this date gets
`count := sum` and `countDay += 1`; a missing date appends `{date, sum, 1}`. -/
def addGraphDate (d : String) (sum : Nat) : List DateEntry → List DateEntry
  | [] => [{ date := d, count := sum, countDay := 1 }]
  | e :: es =>
    if e.date = d then { date := e.date, count := sum, countDay := e.countDay + 1 } :: es
    else e :: addGraphDate d sum es

/-- The timeline fold (app.py 631-646): a running `sum` incremented per checkin, the
entry list updated per checkin. -/
def graphDates (cs : List AggCheckin) : List DateEntry :=
  (cs.foldl (fun acc c => (addGraphDate (dateStr c.first_had) (acc.2 + 1) acc.1, acc.2 + 1))
    (([] : List DateEntry), 0)).1

/-! ## Query endpoints (for the unknown-username behaviour) -/

/-- Insert into a list sorted by `le` (used to model `ORDER BY first_had ASC`). -/
def insertByLe (le : α → α → Bool) (x : α) : List α → List α
  | [] => [x]
  | y :: ys => if le x y then x :: y :: ys else y :: insertByLe le x ys

/-- A stable sort by `le`, modelling the store's `ORDER BY`. -/
def sortByLe (le : α → α → Bool) : List α → List α
  | [] => []
  | x :: xs => insertByLe le x (sortByLe le xs)

/-- The checkin query `Checkin.query.filter_by(user=user)` / `filter(Checkin.user ==
user)`: with a present user, their rows; with `None`, the filter is `user_id IS
NULL`, which matches nothing since `checkins.user_id` is non-nullable
(models.py line 179). -/
def checkinsOfUser (st : Store) (user : Option StUser) : List StCheckin :=
  st.checkins.filter (fun c =>
    match user with
    | some u => c.user_id == u.id
    | none => false)

/-- The country reached through `checkin.beer.brewery.country`; the `getD` default is
unreachable for rows respecting the non-null foreign keys of models.py. -/
def countryOfCheckin (st : Store) (c : StCheckin) : String :=
  (((st.beers.find? (fun b => b.id == c.beer_id)).bind
      (fun b => st.breweries.find? (fun br => br.id == b.brewery_id))).map
    (fun br => br.country)).getD ""

/-- The joined row view of a stored checkin. -/
def toAgg (st : Store) (c : StCheckin) : AggCheckin :=
  { first_had := c.first_had, rating := c.rating, country := countryOfCheckin st c }

/-- A response envelope: HTTP status code, `"status": "success"` versus `"fail"`,
and the data payload. -/
structure Response (α : Type) where
  statusCode : Nat
  success : Bool
  payload : α
deriving DecidableEq, Repr

/-- Model of `GET /v1/users/{username}` (app.py 210-228): the profile on success,
else a 404 fail envelope with message "User does not exist". -/
def get_user_details (st : Store) (username : String) : Response (Option StUser) :=
  match get_user_from_db st username with
  | some u => { statusCode := 200, success := true, payload := some u }
  | none => { statusCode := 404, success := false, payload := none }

/-- Model of `GET /v1/users/{username}/checkins` (app.py 281-296): always a 200
success envelope over the user's checkin rows. -/
def get_user_checkins (st : Store) (username : String) : Response (List StCheckin) :=
  { statusCode := 200, success := true,
    payload := checkinsOfUser st (get_user_from_db st username) }

/-- Model of `GET /v1/users/{username}/friends` (app.py 298-317): friendships
touching the user in either position, each mapped to the opposite user. -/
def get_user_friends (st : Store) (username : String) : Response (List StUser) :=
  let user := get_user_from_db st username
  let friendships := st.friendships.filter (fun f =>
    match user with
    | some u => f.user1_id == u.id || f.user2_id == u.id
    | none => false)
  let friends := friendships.filterMap (fun f =>
    match user with
    | none => none
    | some u =>
      st.users.find? (fun v => v.id == (if f.user1_id == u.id then f.user2_id else f.user1_id)))
  { statusCode := 200, success := true, payload := friends }

/-- Model of `GET /v1/users/{username}/countries` (app.py 330-383). -/
def get_user_countries (iso : String → Option String) (st : Store) (username : String) :
    Response (List CountryGroup) :=
  { statusCode := 200, success := true,
    payload := countryGroups iso ((checkinsOfUser st (get_user_from_db st username)).map (toAgg st)) }

/-- Model of `GET /v1/users/{username}/dayofweek` (app.py 508-535). -/
def get_dayofweek_for_username (st : Store) (username : String) :
    Response (List (FinalGroup Nat)) :=
  { statusCode := 200, success := true,
    payload := dayofweekGroups ((checkinsOfUser st (get_user_from_db st username)).map (toAgg st)) }

/-- Model of `GET /v1/users/{username}/timeofday` (app.py 537-564). -/
def get_timeofday_for_username (st : Store) (username : String) :
    Response (List (FinalGroup Nat)) :=
  { statusCode := 200, success := true,
    payload := timeofdayGroups ((checkinsOfUser st (get_user_from_db st username)).map (toAgg st)) }

/-- Model of `GET /v1/users/{username}/month` (app.py 566-593). -/
def get_month_for_username (st : Store) (username : String) :
    Response (List (FinalGroup Nat)) :=
  { statusCode := 200, success := true,
    payload := monthGroups ((checkinsOfUser st (get_user_from_db st username)).map (toAgg st)) }

/-- Model of `GET /v1/users/{username}/year` (app.py 595-622). -/
def get_year_for_username (st : Store) (username : String) :
    Response (List (FinalGroup Nat)) :=
  { statusCode := 200, success := true,
    payload := yearGroups ((checkinsOfUser st (get_user_from_db st username)).map (toAgg st)) }

/-- Model of `GET /v1/users/{username}/graph` (app.py 624-650): the user's checkins
ordered ascending by `first_had`, folded into the timeline. -/
def get_graph_for_username (st : Store) (username : String) :
    Response (List DateEntry) :=
  { statusCode := 200, success := true,
    payload := graphDates
      ((sortByLe (fun a b => dtLE a.first_had b.first_had)
          (checkinsOfUser st (get_user_from_db st username))).map (toAgg st)) }

/-! ## Claim C2: safe_mean -/

/-- C2: `safe_mean` drops the zero ratings before averaging; it returns 0 when the
filtered list is empty, else the arithmetic mean of what remains (stated via
`mean * length = sum`); in particular `safe_mean [] = 0`, `safe_mean [0,0,0] = 0`
and `safe_mean [3,0,5] = 4`. -/
theorem safe_mean_spec :
    (∀ l : List Rat, l.filter (fun x => x != 0) = [] → safe_mean l = 0) ∧
    (∀ l : List Rat, l.filter (fun x => x != 0) ≠ [] →
      safe_mean l * ((l.filter (fun x => x != 0)).length : Rat) =
        (l.filter (fun x => x != 0)).sum) ∧
    safe_mean [] = 0 ∧ safe_mean [0, 0, 0] = 0 ∧ safe_mean [3, 0, 5] = 4 := by
  refine ⟨?_, ?_, ?_, ?_, ?_⟩
  · intro l h
    simp [safe_mean, h]
  · intro l h
    have hlen : 0 < (l.filter (fun x => x != 0)).length := List.length_pos.mpr h
    have hne : ((l.filter (fun x => x != 0)).length : Rat) ≠ 0 := by
      exact_mod_cast Nat.pos_iff_ne_zero.mp hlen
    simp only [safe_mean, if_pos hlen]
    exact div_mul_cancel₀ _ hne
  · norm_num [safe_mean]
  · norm_num [safe_mean]
  · norm_num [safe_mean]

/-- C2 witness: the hypotheses of the conditional parts discharged at `[3, 0, 5]`
and `[0, 0, 0]`. -/
theorem safe_mean_spec_witness :
    safe_mean [0, 0, 0] = 0 ∧
    safe_mean [3, 0, 5] * (([3, 0, 5] : List Rat).filter (fun x => x != 0)).length =
      (([3, 0, 5] : List Rat).filter (fun x => x != 0)).sum :=
  ⟨safe_mean_spec.1 [0, 0, 0] (by norm_num),
   safe_mean_spec.2.1 [3, 0, 5] (by decide)⟩

/-! ## Claim C3: country code resolution -/

/-- C3: country resolution consults the override table first by exact match, else
the ISO standard-name lookup (lower-cased), else returns the empty string with the
diagnostic; "Scotland" gives "gb", "Laos" gives "la", "Atlantis" gives "" with the
diagnostic fired. -/
theorem get_country_code_spec :
    (∀ iso : String → Option String, ∀ name c,
      COUNTRY_CODE_MAPPING_TABLE.lookup name = some c →
      get_country_code iso name = { code := c, diagnostic := false }) ∧
    (∀ iso : String → Option String, ∀ name a2,
      COUNTRY_CODE_MAPPING_TABLE.lookup name = none → iso name = some a2 →
      get_country_code iso name = { code := lowerStr a2, diagnostic := false }) ∧
    (∀ iso : String → Option String, ∀ name,
      COUNTRY_CODE_MAPPING_TABLE.lookup name = none → iso name = none →
      get_country_code iso name = { code := "", diagnostic := true }) ∧
    get_country_code pycountryNames "Scotland" = { code := "gb", diagnostic := false } ∧
    get_country_code pycountryNames "Laos" = { code := "la", diagnostic := false } ∧
    get_country_code pycountryNames "Atlantis" = { code := "", diagnostic := true } := by
  refine ⟨?_, ?_, ?_, by decide, by decide, by decide⟩
  · intro iso name c h
    simp [get_country_code, h]
  · intro iso name a2 h1 h2
    simp [get_country_code, h1, h2]
  · intro iso name h1 h2
    simp [get_country_code, h1, h2]

/-- C3 witness: the three dispatch branches discharged at concrete names, the ISO
branch at "Norway" against the modelled pycountry table. -/
theorem get_country_code_spec_witness :
    get_country_code pycountryNames "Scotland" = { code := "gb", diagnostic := false } ∧
    get_country_code pycountryNames "Norway" = { code := "no", diagnostic := false } ∧
    get_country_code pycountryNames "Atlantis" = { code := "", diagnostic := true } :=
  ⟨get_country_code_spec.1 pycountryNames "Scotland" "gb" (by decide),
   by
    have h := get_country_code_spec.2.1 pycountryNames "Norway" "NO" (by decide) (by decide)
    simpa using h,
   get_country_code_spec.2.2.1 pycountryNames "Atlantis" (by decide) (by decide)⟩

/-! ## Claim C7: friendship dedup -/

/-- The row `f` links users `a` and `b`, in either ordering. -/
def sameUPair (f : StFriendship) (a b : Nat) : Prop :=
  (f.user1_id = a ∧ f.user2_id = b) ∨ (f.user1_id = b ∧ f.user2_id = a)

/-- At most one friendship row per unordered pair of users. -/
def PairUnique (l : List StFriendship) : Prop :=
  l.Pairwise (fun f g => ¬ sameUPair f g.user1_id g.user2_id)

theorem friendshipMatches_iff (u v : Nat) (f : StFriendship) :
    friendshipMatches u v f = true ↔ sameUPair f u v := by
  simp only [friendshipMatches, sameUPair, Bool.or_eq_true, Bool.and_eq_true, beq_iff_eq]
  tauto

/-- The users pass of `handle_friend` never touches the friendships table. -/
theorem friendUserPass_friendships (st : Store) (rf : RawFriend) :
    (friendUserPass st rf).friendships = st.friendships := by
  unfold friendUserPass
  cases st.users.find? (fun u => u.id == rf.user.uid) <;> rfl

/-- When some row already links the pair in either ordering, `handle_friend`
inserts no friendship. -/
theorem handle_friend_found (st : Store) (u : Nat) (rf : RawFriend)
    (h : ∃ f ∈ st.friendships, sameUPair f u rf.user.uid) :
    (handle_friend st u rf).1.friendships = st.friendships := by
  have hfr := friendUserPass_friendships st rf
  have hsome : ((friendUserPass st rf).friendships.find?
      (friendshipMatches u rf.user.uid)).isSome := by
    rw [List.find?_isSome]
    obtain ⟨f, hf, hpair⟩ := h
    exact ⟨f, by rw [hfr]; exact hf, (friendshipMatches_iff u rf.user.uid f).mpr hpair⟩
  obtain ⟨f, hf⟩ := Option.isSome_iff_exists.mp hsome
  simp only [handle_friend]
  rw [hf]
  exact hfr

/-- When no row links the pair in either ordering, `handle_friend` appends exactly
one row carrying the record's hash. -/
theorem handle_friend_not_found (st : Store) (u : Nat) (rf : RawFriend)
    (h : ∀ f ∈ st.friendships, ¬ sameUPair f u rf.user.uid) :
    (handle_friend st u rf).1.friendships =
      st.friendships ++ [{ hash := rf.friendship_hash, user1_id := u, user2_id := rf.user.uid }] := by
  have hfr := friendUserPass_friendships st rf
  have hnone : (friendUserPass st rf).friendships.find?
      (friendshipMatches u rf.user.uid) = none := by
    rw [List.find?_eq_none]
    intro f hf
    rw [hfr] at hf
    simpa [friendshipMatches_iff] using h f hf
  simp only [handle_friend]
  rw [hnone]
  simp [hfr]

/-- C7: friendship rows are unique per unordered pair: a second attempt on the
reversed pair with a different hash inserts nothing (first write wins), and the
at-most-one-row-per-unordered-pair invariant is preserved by `handle_friend`. -/
theorem friendship_dedup :
    (∀ st : Store, ∀ u : Nat, ∀ rf : RawFriend,
      (∃ f ∈ st.friendships, sameUPair f u rf.user.uid) →
      (handle_friend st u rf).1.friendships = st.friendships) ∧
    (∀ st : Store, ∀ u₁ : Nat, ∀ rf₁ : RawFriend, ∀ u₂ : Nat, ∀ rf₂ : RawFriend,
      (∀ f ∈ st.friendships, ¬ sameUPair f u₁ rf₁.user.uid) →
      rf₂.user.uid = u₁ → u₂ = rf₁.user.uid →
      (handle_friend (handle_friend st u₁ rf₁).1 u₂ rf₂).1.friendships =
        st.friendships ++
          [{ hash := rf₁.friendship_hash, user1_id := u₁, user2_id := rf₁.user.uid }]) ∧
    (∀ st : Store, ∀ u : Nat, ∀ rf : RawFriend,
      PairUnique st.friendships → PairUnique (handle_friend st u rf).1.friendships) := by
  refine ⟨handle_friend_found, ?_, ?_⟩
  · intro st u₁ rf₁ u₂ rf₂ h h2 h1
    have hfirst := handle_friend_not_found st u₁ rf₁ h
    have hdup : ∃ f ∈ (handle_friend st u₁ rf₁).1.friendships, sameUPair f u₂ rf₂.user.uid := by
      refine ⟨{ hash := rf₁.friendship_hash, user1_id := u₁, user2_id := rf₁.user.uid }, ?_, ?_⟩
      · rw [hfirst]
        simp
      · right
        exact ⟨h2.symm, h1.symm⟩
    rw [handle_friend_found _ _ _ hdup, hfirst]
  · intro st u rf hpu
    by_cases h : ∃ f ∈ st.friendships, sameUPair f u rf.user.uid
    · rw [PairUnique, handle_friend_found st u rf h]
      exact hpu
    · push_neg at h
      rw [PairUnique, handle_friend_not_found st u rf h, List.pairwise_append]
      refine ⟨hpu, List.pairwise_singleton _ _, ?_⟩
      intro f hf g hg
      simp only [List.mem_singleton] at hg
      subst hg
      exact h f hf

/-- C7 witness: create Friendship(1,2) from an empty table, then attempt
Friendship(2,1) under a different hash; exactly the first row remains. -/
theorem friendship_dedup_witness :
    (handle_friend
      (handle_friend
        { users := [], breweries := [], beers := [], checkins := [], friendships := [] } 1
        { user := { uid := 2, user_name := "b", first_name := "B", last_name := "X",
                    user_avatar := "" },
          friendship_hash := "h1" }).1 2
      { user := { uid := 1, user_name := "a", first_name := "A", last_name := "Y",
                  user_avatar := "" },
        friendship_hash := "h2" }).1.friendships =
      [{ hash := "h1", user1_id := 1, user2_id := 2 }] := by
  have h := friendship_dedup.2.1
    { users := [], breweries := [], beers := [], checkins := [], friendships := [] } 1
    { user := { uid := 2, user_name := "b", first_name := "B", last_name := "X",
                user_avatar := "" },
      friendship_hash := "h1" } 2
    { user := { uid := 1, user_name := "a", first_name := "A", last_name := "Y",
                user_avatar := "" },
      friendship_hash := "h2" }
    (by simp) rfl rfl
  simpa using h

/-! ## Claim C10: unknown-username behaviour of the query endpoints -/

/-- C10: for a username with no case-insensitive match among the stored users,
every query endpoint except the profile one returns a 200 success envelope with
empty data; only the profile endpoint reports the 404 "User does not exist". -/
theorem unknown_user_endpoints (iso : String → Option String) (st : Store) (username : String)
    (h : ∀ u ∈ st.users, lowerStr u.user_name ≠ lowerStr username) :
    get_user_details st username = { statusCode := 404, success := false, payload := none } ∧
    get_user_checkins st username = { statusCode := 200, success := true, payload := [] } ∧
    get_user_friends st username = { statusCode := 200, success := true, payload := [] } ∧
    get_user_countries iso st username = { statusCode := 200, success := true, payload := [] } ∧
    get_dayofweek_for_username st username = { statusCode := 200, success := true, payload := [] } ∧
    get_timeofday_for_username st username = { statusCode := 200, success := true, payload := [] } ∧
    get_month_for_username st username = { statusCode := 200, success := true, payload := [] } ∧
    get_year_for_username st username = { statusCode := 200, success := true, payload := [] } ∧
    get_graph_for_username st username = { statusCode := 200, success := true, payload := [] } := by
  have hdb : get_user_from_db st username = none := by
    rw [get_user_from_db, List.find?_eq_none]
    intro u hu
    simpa using h u hu
  have hc : checkinsOfUser st (get_user_from_db st username) = [] := by
    simp [checkinsOfUser, hdb]
  refine ⟨?_, ?_, ?_, ?_, ?_, ?_, ?_, ?_, ?_⟩
  · simp [get_user_details, hdb]
  · simp [get_user_checkins, hc]
  · simp [get_user_friends, hdb]
  · simp [get_user_countries, hc, countryGroups, groupFold]
  · simp [get_dayofweek_for_username, hc, dayofweekGroups, groupFold, finalizeGroups]
  · simp [get_timeofday_for_username, hc, timeofdayGroups, groupFold, finalizeGroups]
  · simp [get_month_for_username, hc, monthGroups, groupFold, finalizeGroups]
  · simp [get_year_for_username, hc, yearGroups, groupFold, finalizeGroups]
  · simp [get_graph_for_username, hc, graphDates, sortByLe]

/-- C10 witness: a store holding only the user "Bob", queried for "alice". -/
theorem unknown_user_endpoints_witness :
    get_user_details
      { users := [{ id := 1, user_name := "Bob", first_name := "B", last_name := "L",
                    avatar := "", avatar_hd := "", total_badges := 0, total_friends := 0,
                    total_checkins := 0, total_beers := 0, access_token := "",
                    api_request_count := 0, last_update := none }],
        breweries := [], beers := [], checkins := [], friendships := [] } "alice" =
      { statusCode := 404, success := false, payload := none } ∧
    get_dayofweek_for_username
      { users := [{ id := 1, user_name := "Bob", first_name := "B", last_name := "L",
                    avatar := "", avatar_hd := "", total_badges := 0, total_friends := 0,
                    total_checkins := 0, total_beers := 0, access_token := "",
                    api_request_count := 0, last_update := none }],
        breweries := [], beers := [], checkins := [], friendships := [] } "alice" =
      { statusCode := 200, success := true, payload := [] } := by
  have h := unknown_user_endpoints pycountryNames
    { users := [{ id := 1, user_name := "Bob", first_name := "B", last_name := "L",
                  avatar := "", avatar_hd := "", total_badges := 0, total_friends := 0,
                  total_checkins := 0, total_beers := 0, access_token := "",
                  api_request_count := 0, last_update := none }],
      breweries := [], beers := [], checkins := [], friendships := [] } "alice"
    (by decide)
  exact ⟨h.1, h.2.2.2.2.1⟩

/-! ## Structural lemmas about the sync reconciler -/

theorem find?_append_left {p : α → Bool} {l₁ : List α} {x : α}
    (h : l₁.find? p = some x) (l₂ : List α) : (l₁ ++ l₂).find? p = some x := by
  induction l₁ with
  | nil => simp at h
  | cons a l ih =>
    by_cases ha : p a
    · rw [List.find?_cons_of_pos _ ha] at h
      simpa [List.find?_cons_of_pos _ ha] using h
    · rw [List.find?_cons_of_neg _ (by simpa using ha)] at h
      simpa [List.find?_cons_of_neg _ (by simpa using ha)] using ih h

theorem isSome_find?_append {p : α → Bool} {x : α} (hx : p x = true) (l : List α) :
    ((l ++ [x]).find? p).isSome := by
  induction l with
  | nil => simp [List.find?_cons_of_pos _ hx]
  | cons a l ih =>
    by_cases ha : p a
    · simp [List.find?_cons_of_pos _ ha]
    · simpa [List.find?_cons_of_neg _ (by simpa using ha)] using ih

theorem find?_replaceFirst (p : α → Bool) (f : α → α)
    (hf : ∀ a, p a = true → p (f a) = true) (l : List α) :
    (replaceFirst p f l).find? p = (l.find? p).map f := by
  induction l with
  | nil => rfl
  | cons a l ih =>
    by_cases ha : p a
    · rw [replaceFirst, if_pos ha, List.find?_cons_of_pos _ (hf a ha),
        List.find?_cons_of_pos _ ha]
      rfl
    · rw [replaceFirst, if_neg ha, List.find?_cons_of_neg _ (by simpa using ha),
        List.find?_cons_of_neg _ (by simpa using ha)]
      exact ih

theorem breweryPass_checkins (st : Store) (rb : RawBrewery) :
    (breweryPass st rb).1.checkins = st.checkins := by
  unfold breweryPass
  cases st.breweries.find? (fun b => b.id == rb.brewery_id) <;> rfl

theorem breweryPass_users (st : Store) (rb : RawBrewery) :
    (breweryPass st rb).1.users = st.users := by
  unfold breweryPass
  cases st.breweries.find? (fun b => b.id == rb.brewery_id) <;> rfl

theorem beerPass_checkins (st : Store) (ri : RawBeerInfo) (br : StBrewery) :
    (beerPass st ri br).1.checkins = st.checkins := by
  unfold beerPass
  cases st.beers.find? (fun b => b.id == ri.bid) <;> rfl

theorem beerPass_users (st : Store) (ri : RawBeerInfo) (br : StBrewery) :
    (beerPass st ri br).1.users = st.users := by
  unfold beerPass
  cases st.beers.find? (fun b => b.id == ri.bid) <;> rfl

/-- A duplicate checkin id makes `handle_beer` return `false` and insert no
checkin row. -/
theorem handle_beer_dup (st : Store) (u : Nat) (rb : RawBeer)
    (h : ∃ c ∈ st.checkins, c.id = rb.first_checkin_id) :
    (handle_beer st u rb).2 = false ∧ (handle_beer st u rb).1.checkins = st.checkins := by
  have hck : (beerPass (breweryPass st rb.brewery).1 rb.beer
      (breweryPass st rb.brewery).2).1.checkins = st.checkins := by
    rw [beerPass_checkins, breweryPass_checkins]
  have hsome : ((beerPass (breweryPass st rb.brewery).1 rb.beer
      (breweryPass st rb.brewery).2).1.checkins.find?
        (fun c => c.id == rb.first_checkin_id)).isSome := by
    rw [List.find?_isSome]
    obtain ⟨c, hc, hid⟩ := h
    exact ⟨c, by rw [hck]; exact hc, by simpa using hid⟩
  obtain ⟨c, hc⟩ := Option.isSome_iff_exists.mp hsome
  simp only [handle_beer]
  rw [hc]
  exact ⟨rfl, hck⟩

theorem handle_beer_users (st : Store) (u : Nat) (rb : RawBeer) :
    (handle_beer st u rb).1.users = st.users := by
  have husers : (beerPass (breweryPass st rb.brewery).1 rb.beer
      (breweryPass st rb.brewery).2).1.users = st.users := by
    rw [beerPass_users, breweryPass_users]
  simp only [handle_beer]
  cases (beerPass (breweryPass st rb.brewery).1 rb.beer
      (breweryPass st rb.brewery).2).1.checkins.find? (fun c => c.id == rb.first_checkin_id) with
  | none => exact husers
  | some c => exact husers

/-- `handle_beer` only ever appends checkin rows. -/
theorem handle_beer_checkins_ext (st : Store) (u : Nat) (rb : RawBeer) :
    ∃ t, (handle_beer st u rb).1.checkins = st.checkins ++ t := by
  have hck : (beerPass (breweryPass st rb.brewery).1 rb.beer
      (breweryPass st rb.brewery).2).1.checkins = st.checkins := by
    rw [beerPass_checkins, breweryPass_checkins]
  simp only [handle_beer]
  cases (beerPass (breweryPass st rb.brewery).1 rb.beer
      (breweryPass st rb.brewery).2).1.checkins.find? (fun c => c.id == rb.first_checkin_id) with
  | none => exact ⟨_, by rw [hck]⟩
  | some c => exact ⟨[], by rw [hck, List.append_nil]⟩

theorem processBeers_stops (rest : List RawBeer) (st : Store) (u : Nat) (rb : RawBeer)
    (h : (handle_beer st u rb).2 = false) :
    processBeers (rb :: rest) u st = ((handle_beer st u rb).1, false) := by
  simp [processBeers, h]

theorem processBeers_users (items : List RawBeer) (u : Nat) (st : Store) :
    (processBeers items u st).1.users = st.users := by
  induction items generalizing st with
  | nil => rfl
  | cons rb rest ih =>
    simp only [processBeers]
    by_cases h : (handle_beer st u rb).2
    · rw [if_pos h, ih, handle_beer_users]
    · rw [if_neg h, handle_beer_users]

theorem processBeers_checkins_ext (items : List RawBeer) (u : Nat) (st : Store) :
    ∃ t, (processBeers items u st).1.checkins = st.checkins ++ t := by
  induction items generalizing st with
  | nil => exact ⟨[], by simp [processBeers]⟩
  | cons rb rest ih =>
    simp only [processBeers]
    obtain ⟨t1, ht1⟩ := handle_beer_checkins_ext st u rb
    by_cases h : (handle_beer st u rb).2
    · rw [if_pos h]
      obtain ⟨t2, ht2⟩ := ih (handle_beer st u rb).1
      exact ⟨t1 ++ t2, by rw [ht2, ht1, List.append_assoc]⟩
    · rw [if_neg h]
      exact ⟨t1, ht1⟩

theorem update_beers_from_offset_fail (src : DataSource) (o bc uid : Nat) (st : Store)
    (h : src.beers o 50 = none) :
    update_beers_from_offset src o bc uid st =
      (st, false, { action := Action.checkins, offset := o, limit := 50 }) := by
  simp [update_beers_from_offset, h]

theorem update_beers_from_offset_users (src : DataSource) (o bc uid : Nat) (st : Store) :
    (update_beers_from_offset src o bc uid st).1.users = st.users := by
  unfold update_beers_from_offset
  cases src.beers o 50 with
  | none => rfl
  | some items => exact processBeers_users items uid st

theorem update_beers_from_offset_checkins_ext (src : DataSource) (o bc uid : Nat) (st : Store) :
    ∃ t, (update_beers_from_offset src o bc uid st).1.checkins = st.checkins ++ t := by
  unfold update_beers_from_offset
  cases src.beers o 50 with
  | none => exact ⟨[], by simp⟩
  | some items => exact processBeers_checkins_ext items uid st

theorem handle_friend_checkins (st : Store) (u : Nat) (rf : RawFriend) :
    (handle_friend st u rf).1.checkins = st.checkins := by
  have h1 : (friendUserPass st rf).checkins = st.checkins := by
    unfold friendUserPass
    cases st.users.find? (fun v => v.id == rf.user.uid) <;> rfl
  simp only [handle_friend]
  cases (friendUserPass st rf).friendships.find? (friendshipMatches u rf.user.uid) with
  | none => exact h1
  | some f => exact h1

theorem handle_friend_users_ext (st : Store) (u : Nat) (rf : RawFriend) :
    ∃ t, (handle_friend st u rf).1.users = st.users ++ t := by
  have h1 : ∃ t, (friendUserPass st rf).users = st.users ++ t := by
    unfold friendUserPass
    cases st.users.find? (fun v => v.id == rf.user.uid) with
    | none => exact ⟨_, rfl⟩
    | some v => exact ⟨[], by simp⟩
  simp only [handle_friend]
  cases (friendUserPass st rf).friendships.find? (friendshipMatches u rf.user.uid) with
  | none => exact h1
  | some f => exact h1

theorem processFriends_checkins (items : List RawFriend) (u : Nat) (st : Store) :
    (processFriends items u st).1.checkins = st.checkins := by
  induction items generalizing st with
  | nil => rfl
  | cons rf rest ih =>
    simp only [processFriends]
    by_cases h : (handle_friend st u rf).2
    · rw [if_pos h, ih, handle_friend_checkins]
    · rw [if_neg h, handle_friend_checkins]

theorem processFriends_users_ext (items : List RawFriend) (u : Nat) (st : Store) :
    ∃ t, (processFriends items u st).1.users = st.users ++ t := by
  induction items generalizing st with
  | nil => exact ⟨[], by simp [processFriends]⟩
  | cons rf rest ih =>
    simp only [processFriends]
    obtain ⟨t1, ht1⟩ := handle_friend_users_ext st u rf
    by_cases h : (handle_friend st u rf).2
    · rw [if_pos h]
      obtain ⟨t2, ht2⟩ := ih (handle_friend st u rf).1
      exact ⟨t1 ++ t2, by rw [ht2, ht1, List.append_assoc]⟩
    · rw [if_neg h]
      exact ⟨t1, ht1⟩

theorem update_friends_from_offset_fail (src : DataSource) (o fc uid : Nat) (st : Store)
    (h : src.friends o 50 = none) :
    update_friends_from_offset src o fc uid st =
      (st, false, { action := Action.friends, offset := o, limit := 50 }) := by
  simp [update_friends_from_offset, h]

theorem update_friends_from_offset_checkins (src : DataSource) (o fc uid : Nat) (st : Store) :
    (update_friends_from_offset src o fc uid st).1.checkins = st.checkins := by
  unfold update_friends_from_offset
  cases src.friends o 50 with
  | none => rfl
  | some items => exact processFriends_checkins items uid st

theorem update_friends_from_offset_users_ext (src : DataSource) (o fc uid : Nat) (st : Store) :
    ∃ t, (update_friends_from_offset src o fc uid st).1.users = st.users ++ t := by
  unfold update_friends_from_offset
  cases src.friends o 50 with
  | none => exact ⟨[], by simp⟩
  | some items => exact processFriends_users_ext items uid st

theorem update_friends_from_offset_action (src : DataSource) (o fc uid : Nat) (st : Store) :
    (update_friends_from_offset src o fc uid st).2.2.action = Action.friends := by
  unfold update_friends_from_offset
  cases src.friends o 50 <;> rfl

/-- A falsy page result breaks the loop: nothing after the current page runs. -/
theorem runPages_stop (f : Nat → Store → Store × Bool × FetchEvent) (o : Nat)
    (os : List Nat) (st : Store) (h : (f o st).2.1 = false) :
    runPages f (o :: os) st = ((f o st).1, [(f o st).2.2]) := by
  simp [runPages, h]

theorem runPages_users (f : Nat → Store → Store × Bool × FetchEvent)
    (hf : ∀ o s, (f o s).1.users = s.users) (os : List Nat) (st : Store) :
    (runPages f os st).1.users = st.users := by
  induction os generalizing st with
  | nil => rfl
  | cons o os ih =>
    simp only [runPages]
    by_cases h : (f o st).2.1
    · rw [if_pos h]
      simp only
      rw [ih, hf]
    · rw [if_neg h]
      exact hf o st

theorem runPages_users_ext (f : Nat → Store → Store × Bool × FetchEvent)
    (hf : ∀ o s, ∃ t, (f o s).1.users = s.users ++ t) (os : List Nat) (st : Store) :
    ∃ t, (runPages f os st).1.users = st.users ++ t := by
  induction os generalizing st with
  | nil => exact ⟨[], by simp [runPages]⟩
  | cons o os ih =>
    simp only [runPages]
    obtain ⟨t1, ht1⟩ := hf o st
    by_cases h : (f o st).2.1
    · rw [if_pos h]
      obtain ⟨t2, ht2⟩ := ih (f o st).1
      exact ⟨t1 ++ t2, by simpa [ht1, List.append_assoc] using ht2⟩
    · rw [if_neg h]
      exact ⟨t1, ht1⟩

theorem runPages_checkins_ext (f : Nat → Store → Store × Bool × FetchEvent)
    (hf : ∀ o s, ∃ t, (f o s).1.checkins = s.checkins ++ t) (os : List Nat) (st : Store) :
    ∃ t, (runPages f os st).1.checkins = st.checkins ++ t := by
  induction os generalizing st with
  | nil => exact ⟨[], by simp [runPages]⟩
  | cons o os ih =>
    simp only [runPages]
    obtain ⟨t1, ht1⟩ := hf o st
    by_cases h : (f o st).2.1
    · rw [if_pos h]
      obtain ⟨t2, ht2⟩ := ih (f o st).1
      exact ⟨t1 ++ t2, by simpa [ht1, List.append_assoc] using ht2⟩
    · rw [if_neg h]
      exact ⟨t1, ht1⟩

/-- A loop over a non-empty offset list always performs (and logs) the first fetch. -/
theorem runPages_head_event (f : Nat → Store → Store × Bool × FetchEvent) (o : Nat)
    (os : List Nat) (st : Store) :
    ∃ l, (runPages f (o :: os) st).2 = (f o st).2.2 :: l := by
  simp only [runPages]
  by_cases h : (f o st).2.1
  · rw [if_pos h]
    exact ⟨_, rfl⟩
  · rw [if_neg h]
    exact ⟨[], rfl⟩

theorem updatedUser_id (u : StUser) (ru : RawUser) : (updatedUser u ru).id = u.id := rfl

theorem syncUser_total_friends (ru : RawUser) (username : String) (st : Store) :
    (syncUser ru username st).2.total_friends = ru.stats.total_friends := by
  unfold syncUser
  cases get_user_from_db st username <;> rfl

theorem syncUser_checkins (ru : RawUser) (username : String) (st : Store) :
    (syncUser ru username st).1.checkins = st.checkins := by
  unfold syncUser
  cases get_user_from_db st username <;> rfl

/-- After the user pass, some stored user carries the synced user's id. -/
theorem syncUser_find (ru : RawUser) (username : String) (st : Store) :
    ((syncUser ru username st).1.users.find?
      (fun v => v.id == (syncUser ru username st).2.id)).isSome := by
  unfold syncUser
  cases hdb : get_user_from_db st username with
  | none =>
    simp only [add_user]
    exact isSome_find?_append (by simp) st.users
  | some u =>
    simp only [update_user]
    have hpred : (fun v : StUser => v.id == (updatedUser u ru).id) =
        (fun v : StUser => v.id == u.id) := rfl
    rw [hpred, find?_replaceFirst (fun v : StUser => v.id == u.id)
      (fun v => updatedUser v ru) (fun a ha => ha)]
    have hu : u ∈ st.users := List.mem_of_find?_eq_some hdb
    have hsome : (st.users.find? (fun v : StUser => v.id == u.id)).isSome := by
      rw [List.find?_isSome]
      exact ⟨u, hu, by simp⟩
    obtain ⟨x, hx⟩ := Option.isSome_iff_exists.mp hsome
    rw [hx]
    rfl

/-- Every offset list with a positive stop starts at offset 0. -/
theorem pyRange_pos (n step : Nat) (hn : 0 < n) (hs : 0 < step) :
    ∃ k, pyRange 0 n step = 0 :: List.range' step k step := by
  unfold pyRange
  have hpos : 0 < (n - 0 + step - 1) / step := by
    apply Nat.div_pos <;> omega
  obtain ⟨k, hk⟩ := Nat.exists_eq_succ_of_ne_zero (Nat.pos_iff_ne_zero.mp hpos)
  rw [hk, List.range'_succ, Nat.zero_add]
  exact ⟨k, rfl⟩

/-- The friends loop is always driven when the user reports friends, regardless of
how the beer phase ended: its first page fetch is performed and logged. -/
theorem friends_phase_runs (src : DataSource) (ru : RawUser) (username : String)
    (now : DateTime) (st : Store) (h : 0 < ru.stats.total_friends) :
    ∃ ev ∈ (update_socketio src ru username now st).2, ev.action = Action.friends := by
  simp only [update_socketio]
  have htf : (syncUser ru username st).2.total_friends = ru.stats.total_friends :=
    syncUser_total_friends ru username st
  obtain ⟨k, hk⟩ := pyRange_pos (syncUser ru username st).2.total_friends 25
    (htf ▸ h) (by norm_num)
  rw [hk]
  obtain ⟨l, hl⟩ := runPages_head_event
    (fun o s => update_friends_from_offset src o (syncUser ru username st).2.total_friends
      (syncUser ru username st).2.id s)
    0 (List.range' 25 k 25) _
  rw [hl]
  refine ⟨_, List.mem_append_right _ (List.mem_cons_self _ _), ?_⟩
  exact update_friends_from_offset_action src 0 _ _ _

/-- Stored checkin rows survive any sync run: the reconciler only appends. -/
theorem sync_checkins_monotone (src : DataSource) (ru : RawUser) (username : String)
    (now : DateTime) (st : Store) (c : StCheckin) (hc : c ∈ st.checkins) :
    c ∈ (update_socketio src ru username now st).1.checkins := by
  simp only [update_socketio]
  obtain ⟨t1, ht1⟩ := runPages_checkins_ext
    (fun o s => update_beers_from_offset src o (syncUser ru username st).2.total_beers
      (syncUser ru username st).2.id s)
    (fun o s => update_beers_from_offset_checkins_ext src o _ _ s)
    (pyRange 0 (syncUser ru username st).2.total_beers 50) (syncUser ru username st).1
  obtain ⟨t2, ht2⟩ := runPages_checkins_ext
    (fun o s => update_friends_from_offset src o (syncUser ru username st).2.total_friends
      (syncUser ru username st).2.id s)
    (fun o s => ⟨[], by simp [update_friends_from_offset_checkins]⟩)
    (pyRange 0 (syncUser ru username st).2.total_friends 25) _
  show c ∈ (set_last_update _ _ _).checkins
  rw [set_last_update]
  simp only
  rw [ht2, ht1, syncUser_checkins]
  exact List.mem_append_left _ (List.mem_append_left _ hc)

/-! ## Claims C1, C4, C5, C6: the sync reconciler -/

/-- C5 (amended): every sync run ends by setting the synced user's `last_update` to
the current instant — early-exit and aborted runs included. -/
theorem last_update_always_set (src : DataSource) (ru : RawUser) (username : String)
    (now : DateTime) (st : Store) :
    (((update_socketio src ru username now st).1.users.find?
        (fun v => v.id == (syncUser ru username st).2.id)).map (fun u => u.last_update))
      = some (some now) := by
  simp only [update_socketio]
  obtain ⟨x, hx⟩ := Option.isSome_iff_exists.mp (syncUser_find ru username st)
  have h2 : (runPages
      (fun o s => update_beers_from_offset src o (syncUser ru username st).2.total_beers
        (syncUser ru username st).2.id s)
      (pyRange 0 (syncUser ru username st).2.total_beers 50)
      (syncUser ru username st).1).1.users = (syncUser ru username st).1.users :=
    runPages_users _ (fun o s => update_beers_from_offset_users src o _ _ s) _ _
  obtain ⟨t, ht⟩ := runPages_users_ext
    (fun o s => update_friends_from_offset src o (syncUser ru username st).2.total_friends
      (syncUser ru username st).2.id s)
    (fun o s => update_friends_from_offset_users_ext src o _ _ s)
    (pyRange 0 (syncUser ru username st).2.total_friends 25) _
  show ((set_last_update _ _ _).users.find? _).map _ = _
  rw [set_last_update]
  simp only
  rw [find?_replaceFirst (fun v : StUser => v.id == (syncUser ru username st).2.id)
    (fun u : StUser => { u with last_update := some now }) (fun a ha => ha)]
  rw [ht, h2, find?_append_left hx]
  rfl

/-- The store of the duplicate-checkin scenario: the user Alice and her one stored
checkin, id 100. -/
def stSync : Store :=
  { users := [{ id := 1, user_name := "Alice", first_name := "A", last_name := "L",
                avatar := "", avatar_hd := "", total_badges := 0, total_friends := 0,
                total_checkins := 1, total_beers := 1, access_token := "tok",
                api_request_count := 0, last_update := none }],
    breweries := [],
    beers := [],
    checkins := [{ id := 100, beer_id := 8, user_id := 1, count := 1, rating := 0,
                   first_had := { year := 2018, month := 8, day := 4, hour := 14,
                                  minute := 44, second := 31 } }],
    friendships := [] }

/-- Alice's freshly fetched profile payload: one beer, one friend. -/
def ruSync : RawUser :=
  { uid := 1, user_name := "Alice", first_name := "A", last_name := "L",
    user_avatar := "", user_avatar_hd := "",
    stats := { total_badges := 0, total_friends := 1, total_checkins := 1,
               total_beers := 1 } }

/-- A fetched beer record whose `first_checkin_id` (100) is already stored, but
whose brewery (7) is not. -/
def rbDup : RawBeer :=
  { brewery := { brewery_id := 7, brewery_name := "B", brewery_label := "",
                 country_name := "Norway", brewery_city := "", brewery_state := "",
                 lat := 0, lng := 0 },
    beer := { bid := 8, beer_name := "Beer", beer_label := "", rating_score := 0,
              beer_abv := 0, beer_style := "" },
    first_checkin_id := 100, count := 1, rating_score := 0,
    first_had := { year := 2018, month := 8, day := 4, hour := 14, minute := 44,
                   second := 31 } }

/-- A friend record for the friends page of the scenario. -/
def rfBob : RawFriend :=
  { user := { uid := 2, user_name := "Bob", first_name := "B", last_name := "X",
              user_avatar := "" },
    friendship_hash := "h1" }

/-- The data source of the duplicate-checkin scenario: beer page 0 holds the
duplicate record, friend page 0 holds Bob. -/
def srcDup : DataSource :=
  { beers := fun o _ => if o == 0 then some [rbDup] else none,
    friends := fun o _ => if o == 0 then some [rfBob] else none }

/-- The timestamp the scenario runs at. -/
def nowX : DateTime :=
  { year := 2024, month := 5, day := 1, hour := 0, minute := 0, second := 0 }

/-- C1 counterexample: beer page 0 carries a record whose `first_checkin_id` is
already stored, yet the run still writes a brewery row for that record and still
enters the friends phase — so neither "no further writes occur for that record" nor
"the friends phase is never entered" holds of the code. -/
theorem sync_dup_counterexample :
    (∃ c ∈ stSync.checkins, c.id = rbDup.first_checkin_id) ∧
    srcDup.beers 0 50 = some [rbDup] ∧
    (update_socketio srcDup ruSync "alice" nowX stSync).1.breweries.length
        = stSync.breweries.length + 1 ∧
    (∃ ev ∈ (update_socketio srcDup ruSync "alice" nowX stSync).2,
      ev.action = Action.friends) := by
  decide

/-- C1 (amended): a duplicate `first_checkin_id` makes `handle_beer` report `false`
without inserting any checkin row; the page loop then processes no later record of
that page; the offset loop fetches no further beer page; but the friends phase is
still entered whenever the user reports friends. -/
theorem sync_dup_halts_beer_phase :
    (∀ st : Store, ∀ u : Nat, ∀ rb : RawBeer,
      (∃ c ∈ st.checkins, c.id = rb.first_checkin_id) →
      (handle_beer st u rb).2 = false ∧ (handle_beer st u rb).1.checkins = st.checkins) ∧
    (∀ rest : List RawBeer, ∀ st : Store, ∀ u : Nat, ∀ rb : RawBeer,
      (handle_beer st u rb).2 = false →
      processBeers (rb :: rest) u st = ((handle_beer st u rb).1, false)) ∧
    (∀ f : Nat → Store → Store × Bool × FetchEvent, ∀ o : Nat, ∀ os : List Nat, ∀ st : Store,
      (f o st).2.1 = false →
      runPages f (o :: os) st = ((f o st).1, [(f o st).2.2])) ∧
    (∀ src : DataSource, ∀ ru : RawUser, ∀ username : String, ∀ now : DateTime, ∀ st : Store,
      0 < ru.stats.total_friends →
      ∃ ev ∈ (update_socketio src ru username now st).2, ev.action = Action.friends) :=
  ⟨handle_beer_dup, processBeers_stops, runPages_stop, friends_phase_runs⟩

/-- C1 witness: the amended parts discharged on the duplicate-checkin scenario. -/
theorem sync_dup_halts_beer_phase_witness :
    ((handle_beer stSync 1 rbDup).2 = false ∧
      (handle_beer stSync 1 rbDup).1.checkins = stSync.checkins) ∧
    processBeers [rbDup] 1 stSync = ((handle_beer stSync 1 rbDup).1, false) ∧
    (∃ ev ∈ (update_socketio srcDup ruSync "alice" nowX stSync).2,
      ev.action = Action.friends) :=
  ⟨sync_dup_halts_beer_phase.1 stSync 1 rbDup (by decide),
   sync_dup_halts_beer_phase.2.1 [] stSync 1 rbDup
     (sync_dup_halts_beer_phase.1 stSync 1 rbDup (by decide)).1,
   sync_dup_halts_beer_phase.2.2.2 srcDup ruSync "alice" nowX stSync (by decide)⟩

/-- The data source of the fetch-failure scenario: every beer page fetch raises,
friend page 0 succeeds (and is empty). -/
def srcFail : DataSource :=
  { beers := fun _ _ => none,
    friends := fun o _ => if o == 0 then some [] else none }

/-- Alice's profile payload in the fetch-failure scenario: 60 beers (two pages),
one friend. -/
def ruFail : RawUser :=
  { uid := 1, user_name := "Alice", first_name := "A", last_name := "L",
    user_avatar := "", user_avatar_hd := "",
    stats := { total_badges := 0, total_friends := 1, total_checkins := 0,
               total_beers := 60 } }

/-- C4 counterexample: the very first beer page fetch raises, yet the run still
fetches a friends page afterwards — "no further pages are fetched in any phase" does
not hold of the code. -/
theorem fetch_error_counterexample :
    srcFail.beers 0 50 = none ∧
    (update_socketio srcFail ruFail "alice" nowX stSync).2 =
      [{ action := Action.checkins, offset := 0, limit := 50 },
       { action := Action.friends, offset := 0, limit := 50 }] ∧
    (∃ ev ∈ (update_socketio srcFail ruFail "alice" nowX stSync).2,
      ev.action = Action.friends) := by
  decide

/-- C4 (amended): a raised page fetch stops the current phase — the failing call
leaves the store untouched and the loop fetches no later offset of that phase — and
inserts committed by earlier pages survive the whole run (no rollback); but a
beer-phase failure does not keep the friends phase from running. -/
theorem fetch_error_stops_phase :
    (∀ src : DataSource, ∀ o bc uid : Nat, ∀ st : Store, src.beers o 50 = none →
      update_beers_from_offset src o bc uid st =
        (st, false, { action := Action.checkins, offset := o, limit := 50 })) ∧
    (∀ src : DataSource, ∀ o fc uid : Nat, ∀ st : Store, src.friends o 50 = none →
      update_friends_from_offset src o fc uid st =
        (st, false, { action := Action.friends, offset := o, limit := 50 })) ∧
    (∀ f : Nat → Store → Store × Bool × FetchEvent, ∀ o : Nat, ∀ os : List Nat, ∀ st : Store,
      (f o st).2.1 = false →
      runPages f (o :: os) st = ((f o st).1, [(f o st).2.2])) ∧
    (∀ src : DataSource, ∀ ru : RawUser, ∀ username : String, ∀ now : DateTime,
      ∀ st : Store, ∀ c : StCheckin, c ∈ st.checkins →
      c ∈ (update_socketio src ru username now st).1.checkins) ∧
    (∀ src : DataSource, ∀ ru : RawUser, ∀ username : String, ∀ now : DateTime, ∀ st : Store,
      0 < ru.stats.total_friends →
      ∃ ev ∈ (update_socketio src ru username now st).2, ev.action = Action.friends) :=
  ⟨update_beers_from_offset_fail, update_friends_from_offset_fail, runPages_stop,
   sync_checkins_monotone, friends_phase_runs⟩

/-- C4 witness: the amended parts discharged on the fetch-failure scenario. -/
theorem fetch_error_stops_phase_witness :
    update_beers_from_offset srcFail 0 60 1 stSync =
      (stSync, false, { action := Action.checkins, offset := 0, limit := 50 }) ∧
    runPages (fun o s => update_beers_from_offset srcFail o 60 1 s) [0, 50] stSync =
      (stSync, [{ action := Action.checkins, offset := 0, limit := 50 }]) ∧
    ({ id := 100, beer_id := 8, user_id := 1, count := 1, rating := 0,
       first_had := { year := 2018, month := 8, day := 4, hour := 14, minute := 44,
                      second := 31 } } : StCheckin)
      ∈ (update_socketio srcFail ruFail "alice" nowX stSync).1.checkins := by
  refine ⟨fetch_error_stops_phase.1 srcFail 0 60 1 stSync rfl, ?_, ?_⟩
  · have h := fetch_error_stops_phase.2.2.1
      (fun o s => update_beers_from_offset srcFail o 60 1 s) 0 [50] stSync (by decide)
    rw [h]
    decide
  · exact fetch_error_stops_phase.2.2.2.1 srcFail ruFail "alice" nowX stSync _ (by decide)

/-- C5 counterexample: in the duplicate-checkin scenario the run early-exits on the
stored checkin id, yet Alice's `last_update`, previously unset, ends up set to the
run's instant. -/
theorem last_update_counterexample :
    (∃ u ∈ stSync.users, u.id = 1 ∧ u.last_update = none) ∧
    (∃ c ∈ stSync.checkins, c.id = rbDup.first_checkin_id) ∧
    ((update_socketio srcDup ruSync "alice" nowX stSync).1.users.find?
        (fun u => u.id == 1)).map (fun u => u.last_update) = some (some nowX) := by
  decide

/-- The data source of the friends-paging scenario: every friend page fetch succeeds
and is empty. -/
def srcFriends : DataSource :=
  { beers := fun _ _ => none,
    friends := fun _ _ => some [] }

/-- Alice's profile payload in the friends-paging scenario: no beers, 60 friends
(three pages at a step of 25). -/
def ruFriends : RawUser :=
  { uid := 1, user_name := "Alice", first_name := "A", last_name := "L",
    user_avatar := "", user_avatar_hd := "",
    stats := { total_badges := 0, total_friends := 60, total_checkins := 0,
               total_beers := 0 } }

/-- C6: for a user reporting 60 friends the friends phase fetches at offsets
0, 25, 50 — consecutive offsets differ by 25 — but every fetch passes limit 50
(app.py line 798), not the at-most-25 the claim states (and the API client's own
docstring documents as the maximum). -/
theorem friends_fetch_requests :
    (update_socketio srcFriends ruFriends "alice" nowX stSync).2 =
      [{ action := Action.friends, offset := 0, limit := 50 },
       { action := Action.friends, offset := 25, limit := 50 },
       { action := Action.friends, offset := 50, limit := 50 }] := by
  decide

/-! ## Claim C8: order-independence of the grouping engine -/

/-- The group with the given key, as the linear scan finds it. -/
def findGroup {K : Type} [DecidableEq K] (gs : List (Group K)) (k : K) : Option (Group K) :=
  gs.find? (fun g => g.key == k)

/-- The found group's count, 0 when absent. -/
def gcount {K : Type} [DecidableEq K] (gs : List (Group K)) (k : K) : Nat :=
  ((findGroup gs k).map (fun g => g.count)).getD 0

/-- The found group's rating sample, empty when absent. -/
def gratings {K : Type} [DecidableEq K] (gs : List (Group K)) (k : K) : List Rat :=
  ((findGroup gs k).map (fun g => g.ratings)).getD []

theorem findGroup_key {K : Type} [DecidableEq K] {gs : List (Group K)} {k : K}
    {g : Group K} (h : findGroup gs k = some g) : g.key = k := by
  have := List.find?_some h
  simpa using this

theorem findGroup_cons {K : Type} [DecidableEq K] (g : Group K) (gs : List (Group K))
    (k : K) : findGroup (g :: gs) k = if g.key = k then some g else findGroup gs k := by
  rw [findGroup, List.find?]
  by_cases h : g.key = k
  · have e : (g.key == k) = true := by simpa using h
    rw [e, if_pos h]
  · have e : (g.key == k) = false := by simpa using h
    rw [e, if_neg h]
    rfl

/-- How one scan step changes what `findGroup` sees. -/
theorem findGroup_addToGroups {K : Type} [DecidableEq K] (gs : List (Group K))
    (k k' : K) (r : Rat) :
    findGroup (addToGroups k r gs) k' =
      if k' = k then
        some (match findGroup gs k with
          | some g => { key := g.key, count := g.count + 1, ratings := g.ratings ++ [r] }
          | none => { key := k, count := 1, ratings := [r] })
      else findGroup gs k' := by
  induction gs with
  | nil =>
    by_cases h : k' = k
    · subst h
      simp [addToGroups, findGroup]
    · have h' : ¬ (k = k') := fun he => h he.symm
      simp [addToGroups, findGroup, h, h']
  | cons g gs ih =>
    simp only [addToGroups]
    by_cases hgk : g.key = k
    · rw [if_pos hgk]
      by_cases h : k' = k
      · subst h
        simp [findGroup_cons, hgk]
      · have hgk' : ¬ (g.key = k') := fun he => h (by rw [← he, hgk])
        have hkk' : ¬ (k = k') := fun he => h he.symm
        simp [findGroup_cons, h, hgk', hgk, hkk']
    · rw [if_neg hgk]
      by_cases hgk' : g.key = k'
      · have h : ¬ (k' = k) := fun he => hgk (by rw [hgk']; exact he)
        simp [findGroup_cons, hgk, hgk', h]
      · simp [findGroup_cons, hgk, hgk', ih]

/-- The scan step used by every grouping endpoint. -/
def groupStep {K : Type} [DecidableEq K] (key : AggCheckin → K)
    (gs : List (Group K)) (c : AggCheckin) : List (Group K) :=
  addToGroups (key c) c.rating gs

theorem groupFold_eq_foldl {K : Type} [DecidableEq K] (key : AggCheckin → K)
    (cs : List AggCheckin) : groupFold key cs = cs.foldl (groupStep key) [] := rfl

/-- Key presence after the fold: a key is present exactly when the base held it or
some checkin carries it. -/
theorem isSome_findGroup_foldl {K : Type} [DecidableEq K] (key : AggCheckin → K)
    (cs : List AggCheckin) (gs : List (Group K)) (k : K) :
    (findGroup (cs.foldl (groupStep key) gs) k).isSome =
      ((findGroup gs k).isSome || cs.any (fun c => key c == k)) := by
  induction cs generalizing gs with
  | nil => simp
  | cons c cs ih =>
    rw [List.foldl_cons, ih, List.any_cons]
    simp only [groupStep]
    by_cases h : k = key c
    · subst h
      have h1 : (findGroup (addToGroups (key c) c.rating gs) (key c)).isSome = true := by
        rw [findGroup_addToGroups, if_pos rfl]
        rfl
      rw [h1]
      simp
    · have hb : (key c == k) = false := by simpa using fun he => h he.symm
      have h1 : findGroup (addToGroups (key c) c.rating gs) k = findGroup gs k := by
        rw [findGroup_addToGroups, if_neg h]
      rw [h1, hb]
      simp [Bool.or_assoc]

/-- Group counts after the fold. -/
theorem gcount_foldl {K : Type} [DecidableEq K] (key : AggCheckin → K)
    (cs : List AggCheckin) (gs : List (Group K)) (k : K) :
    gcount (cs.foldl (groupStep key) gs) k =
      gcount gs k + cs.countP (fun c => key c == k) := by
  induction cs generalizing gs with
  | nil => simp
  | cons c cs ih =>
    rw [List.foldl_cons, ih, List.countP_cons]
    simp only [groupStep]
    by_cases h : k = key c
    · subst h
      have h1 : gcount (addToGroups (key c) c.rating gs) (key c) = gcount gs (key c) + 1 := by
        unfold gcount
        rw [findGroup_addToGroups, if_pos rfl]
        cases findGroup gs (key c) <;> simp
      have hb : (key c == key c) = true := by simp
      rw [h1, hb]
      simp
      omega
    · have hb : (key c == k) = false := by simpa using fun he => h he.symm
      have h1 : gcount (addToGroups (key c) c.rating gs) k = gcount gs k := by
        unfold gcount
        rw [findGroup_addToGroups, if_neg h]
      rw [h1, hb]
      simp

/-- Group rating samples after the fold. -/
theorem gratings_foldl {K : Type} [DecidableEq K] (key : AggCheckin → K)
    (cs : List AggCheckin) (gs : List (Group K)) (k : K) :
    gratings (cs.foldl (groupStep key) gs) k =
      gratings gs k ++ (cs.filter (fun c => key c == k)).map (fun c => c.rating) := by
  induction cs generalizing gs with
  | nil => simp
  | cons c cs ih =>
    rw [List.foldl_cons, ih, List.filter_cons]
    simp only [groupStep]
    by_cases h : k = key c
    · subst h
      have h1 : gratings (addToGroups (key c) c.rating gs) (key c) =
          gratings gs (key c) ++ [c.rating] := by
        unfold gratings
        rw [findGroup_addToGroups, if_pos rfl]
        cases findGroup gs (key c) <;> simp
      have hb : (key c == key c) = true := by simp
      rw [h1, hb]
      simp
    · have hb : (key c == k) = false := by simpa using fun he => h he.symm
      have h1 : gratings (addToGroups (key c) c.rating gs) k = gratings gs k := by
        unfold gratings
        rw [findGroup_addToGroups, if_neg h]
      rw [h1, hb]
      simp

/-- One scan step either keeps the key list or appends the new key. -/
theorem keys_addToGroups {K : Type} [DecidableEq K] (gs : List (Group K)) (k : K) (r : Rat) :
    (addToGroups k r gs).map (fun g => g.key) =
      if (findGroup gs k).isSome then gs.map (fun g => g.key)
      else gs.map (fun g => g.key) ++ [k] := by
  induction gs with
  | nil => simp [addToGroups, findGroup]
  | cons g gs ih =>
    simp only [addToGroups]
    by_cases hgk : g.key = k
    · rw [if_pos hgk, findGroup_cons, if_pos hgk]
      simp
    · rw [if_neg hgk, findGroup_cons, if_neg hgk]
      simp only [List.map_cons]
      rw [ih]
      by_cases h : (findGroup gs k).isSome
      · rw [if_pos h, if_pos h]
      · rw [if_neg h, if_neg h]
        simp

theorem mem_keys_iff {K : Type} [DecidableEq K] (gs : List (Group K)) (k : K) :
    k ∈ gs.map (fun g => g.key) ↔ (findGroup gs k).isSome := by
  rw [findGroup, List.find?_isSome]
  simp

/-- The scan never produces two groups with the same key. -/
theorem keys_nodup_foldl {K : Type} [DecidableEq K] (key : AggCheckin → K)
    (cs : List AggCheckin) (gs : List (Group K))
    (h : (gs.map (fun g => g.key)).Nodup) :
    ((cs.foldl (groupStep key) gs).map (fun g => g.key)).Nodup := by
  induction cs generalizing gs with
  | nil => exact h
  | cons c cs ih =>
    rw [List.foldl_cons]
    apply ih
    show ((addToGroups (key c) c.rating gs).map (fun g => g.key)).Nodup
    rw [keys_addToGroups]
    by_cases hs : (findGroup gs (key c)).isSome
    · rw [if_pos hs]
      exact h
    · rw [if_neg hs]
      rw [← List.concat_eq_append]
      exact List.Nodup.concat (fun hm => hs ((mem_keys_iff gs (key c)).mp hm)) h

/-- Within a duplicate-free scan result, every group is what `findGroup` returns at
its own key. -/
theorem findGroup_of_mem {K : Type} [DecidableEq K] {gs : List (Group K)}
    (h : (gs.map (fun g => g.key)).Nodup) {g : Group K} (hg : g ∈ gs) :
    findGroup gs g.key = some g := by
  induction gs with
  | nil => cases hg
  | cons a gs ih =>
    have h' : a.key ∉ gs.map (fun g => g.key) ∧ (gs.map (fun g => g.key)).Nodup := by
      rw [List.map_cons, List.nodup_cons] at h
      exact h
    rcases List.mem_cons.mp hg with rfl | hg'
    · simp [findGroup, List.find?]
    · have hne : ¬ (a.key = g.key) := fun he =>
        h'.1 (he ▸ List.mem_map_of_mem (fun g => g.key) hg')
      rw [findGroup_cons, if_neg hne]
      exact ih h'.2 hg'

/-- `safe_mean` only depends on the multiset of samples. -/
theorem safe_mean_perm {l1 l2 : List Rat} (h : l1.Perm l2) : safe_mean l1 = safe_mean l2 := by
  have hf : (l1.filter (fun x => x != 0)).Perm (l2.filter (fun x => x != 0)) :=
    h.filter (fun x => x != 0)
  rw [safe_mean, safe_mean]
  simp only [hf.length_eq, hf.sum_eq]

theorem perm_any {l1 l2 : List α} (p : α → Bool) (h : l1.Perm l2) : l1.any p = l2.any p := by
  rcases hb : l2.any p with _ | _
  · rw [List.any_eq_false] at hb ⊢
    intro x hx
    exact hb x (h.mem_iff.mp hx)
  · rw [List.any_eq_true] at hb ⊢
    obtain ⟨x, hx, hp⟩ := hb
    exact ⟨x, h.mem_iff.mpr hx, hp⟩

/-- The master lemma: the (key, count, zero-filtered mean) triples of the scan
result are a permutation-invariant of the input list. -/
theorem groupFold_stats_perm {K : Type} [DecidableEq K] (key : AggCheckin → K)
    {cs1 cs2 : List AggCheckin} (hp : cs1.Perm cs2) :
    ((groupFold key cs1).map (fun g => (g.key, g.count, safe_mean g.ratings))).Perm
      ((groupFold key cs2).map (fun g => (g.key, g.count, safe_mean g.ratings))) := by
  have hmap : ∀ cs : List AggCheckin,
      (groupFold key cs).map (fun g => (g.key, g.count, safe_mean g.ratings)) =
        ((groupFold key cs).map (fun g => g.key)).map
          (fun k => (k, cs.countP (fun c => key c == k),
            safe_mean ((cs.filter (fun c => key c == k)).map (fun c => c.rating)))) := by
    intro cs
    rw [List.map_map]
    apply List.map_congr_left
    intro g hg
    have hnd : ((groupFold key cs).map (fun g => g.key)).Nodup :=
      keys_nodup_foldl key cs [] (by simp)
    have hfg : findGroup (groupFold key cs) g.key = some g := findGroup_of_mem hnd hg
    have hc : g.count = cs.countP (fun c => key c == g.key) := by
      have := gcount_foldl key cs [] g.key
      rw [← groupFold_eq_foldl] at this
      unfold gcount at this
      rw [hfg] at this
      simpa [findGroup] using this
    have hr : g.ratings = (cs.filter (fun c => key c == g.key)).map (fun c => c.rating) := by
      have := gratings_foldl key cs [] g.key
      rw [← groupFold_eq_foldl] at this
      unfold gratings at this
      rw [hfg] at this
      simpa [findGroup] using this
    simp only [Function.comp]
    rw [← hc, ← hr]
  have hkeys : ((groupFold key cs1).map (fun g => g.key)).Perm
      ((groupFold key cs2).map (fun g => g.key)) := by
    apply (List.perm_ext_iff_of_nodup
      (keys_nodup_foldl key cs1 [] (by simp))
      (keys_nodup_foldl key cs2 [] (by simp))).mpr
    intro k
    rw [mem_keys_iff, mem_keys_iff, ← groupFold_eq_foldl, ← groupFold_eq_foldl]
    rw [groupFold_eq_foldl, groupFold_eq_foldl,
      isSome_findGroup_foldl, isSome_findGroup_foldl,
      perm_any (fun c => key c == k) hp]
  have hfun : ∀ k : K,
      (k, cs1.countP (fun c => key c == k),
        safe_mean ((cs1.filter (fun c => key c == k)).map (fun c => c.rating))) =
      (k, cs2.countP (fun c => key c == k),
        safe_mean ((cs2.filter (fun c => key c == k)).map (fun c => c.rating))) := by
    intro k
    rw [hp.countP_eq (fun c => key c == k),
      safe_mean_perm ((hp.filter (fun c => key c == k)).map (fun c => c.rating))]
  rw [hmap cs1, hmap cs2]
  have hcongr : ((groupFold key cs1).map (fun g => g.key)).map
        (fun k => (k, cs1.countP (fun c => key c == k),
          safe_mean ((cs1.filter (fun c => key c == k)).map (fun c => c.rating))))
      = ((groupFold key cs1).map (fun g => g.key)).map
        (fun k => (k, cs2.countP (fun c => key c == k),
          safe_mean ((cs2.filter (fun c => key c == k)).map (fun c => c.rating)))) := by
    apply List.map_congr_left
    intro k _
    exact hfun k
  rw [hcongr]
  exact hkeys.map _

theorem finalize_groupFold_perm {K : Type} [DecidableEq K] (key : AggCheckin → K)
    {cs1 cs2 : List AggCheckin} (hp : cs1.Perm cs2) :
    (finalizeGroups (groupFold key cs1)).Perm (finalizeGroups (groupFold key cs2)) := by
  have h := groupFold_stats_perm key hp
  have e : ∀ cs : List AggCheckin, finalizeGroups (groupFold key cs) =
      ((groupFold key cs).map (fun g => (g.key, g.count, safe_mean g.ratings))).map
        (fun p => { key := p.1, count := p.2.1, averageRating := p.2.2 }) := by
    intro cs
    rw [finalizeGroups, List.map_map]
    rfl
  rw [e cs1, e cs2]
  exact h.map _

/-- C8: each grouping endpoint (weekday, hour, month, year, country) produces, for
any permutation of the same checkin list, a permutation of the same finished groups
— identical keys, counts and average ratings, differing at most in listing order. -/
theorem grouping_perm_invariant :
    ∀ cs1 cs2 : List AggCheckin, cs1.Perm cs2 →
      (dayofweekGroups cs1).Perm (dayofweekGroups cs2) ∧
      (timeofdayGroups cs1).Perm (timeofdayGroups cs2) ∧
      (monthGroups cs1).Perm (monthGroups cs2) ∧
      (yearGroups cs1).Perm (yearGroups cs2) ∧
      ∀ iso : String → Option String,
        (countryGroups iso cs1).Perm (countryGroups iso cs2) := by
  intro cs1 cs2 hp
  refine ⟨finalize_groupFold_perm _ hp, finalize_groupFold_perm _ hp,
    finalize_groupFold_perm _ hp, finalize_groupFold_perm _ hp, ?_⟩
  intro iso
  have h := groupFold_stats_perm (fun c => c.country) hp
  have e : ∀ cs : List AggCheckin, countryGroups iso cs =
      ((groupFold (fun c => c.country) cs).map
          (fun g => (g.key, g.count, safe_mean g.ratings))).map
        (fun p => CountryGroup.mk p.1 p.2.1 (upperStr (get_country_code iso p.1).code) p.2.2) := by
    intro cs
    rw [countryGroups, List.map_map]
    rfl
  rw [e cs1, e cs2]
  exact h.map _

/-- C8 witness: a three-checkin list against a rotation of it, for the weekday and
the country groupings. -/
theorem grouping_perm_invariant_witness :
    (dayofweekGroups
        [{ first_had := { year := 2024, month := 1, day := 1, hour := 12, minute := 0,
                          second := 0 }, rating := 4, country := "Norway" },
         { first_had := { year := 2024, month := 1, day := 2, hour := 20, minute := 0,
                          second := 0 }, rating := 0, country := "Norway" },
         { first_had := { year := 2024, month := 2, day := 5, hour := 9, minute := 30,
                          second := 0 }, rating := 3, country := "Scotland" }]).Perm
      (dayofweekGroups
        [{ first_had := { year := 2024, month := 2, day := 5, hour := 9, minute := 30,
                          second := 0 }, rating := 3, country := "Scotland" },
         { first_had := { year := 2024, month := 1, day := 1, hour := 12, minute := 0,
                          second := 0 }, rating := 4, country := "Norway" },
         { first_had := { year := 2024, month := 1, day := 2, hour := 20, minute := 0,
                          second := 0 }, rating := 0, country := "Norway" }]) ∧
    (countryGroups pycountryNames
        [{ first_had := { year := 2024, month := 1, day := 1, hour := 12, minute := 0,
                          second := 0 }, rating := 4, country := "Norway" },
         { first_had := { year := 2024, month := 1, day := 2, hour := 20, minute := 0,
                          second := 0 }, rating := 0, country := "Norway" },
         { first_had := { year := 2024, month := 2, day := 5, hour := 9, minute := 30,
                          second := 0 }, rating := 3, country := "Scotland" }]).Perm
      (countryGroups pycountryNames
        [{ first_had := { year := 2024, month := 2, day := 5, hour := 9, minute := 30,
                          second := 0 }, rating := 3, country := "Scotland" },
         { first_had := { year := 2024, month := 1, day := 1, hour := 12, minute := 0,
                          second := 0 }, rating := 4, country := "Norway" },
         { first_had := { year := 2024, month := 1, day := 2, hour := 20, minute := 0,
                          second := 0 }, rating := 0, country := "Norway" }]) := by
  have h := grouping_perm_invariant
    [{ first_had := { year := 2024, month := 1, day := 1, hour := 12, minute := 0,
                      second := 0 }, rating := 4, country := "Norway" },
     { first_had := { year := 2024, month := 1, day := 2, hour := 20, minute := 0,
                      second := 0 }, rating := 0, country := "Norway" },
     { first_had := { year := 2024, month := 2, day := 5, hour := 9, minute := 30,
                      second := 0 }, rating := 3, country := "Scotland" }]
    [{ first_had := { year := 2024, month := 2, day := 5, hour := 9, minute := 30,
                      second := 0 }, rating := 3, country := "Scotland" },
     { first_had := { year := 2024, month := 1, day := 1, hour := 12, minute := 0,
                      second := 0 }, rating := 4, country := "Norway" },
     { first_had := { year := 2024, month := 1, day := 2, hour := 20, minute := 0,
                      second := 0 }, rating := 0, country := "Norway" }]
    (by decide)
  exact ⟨h.1, h.2.2.2.2 pycountryNames⟩

/-! ## Claim C9: the timeline aggregation -/

theorem natDigitsAux_eq (f1 : Nat) : ∀ f2 n : Nat, n < f1 → n < f2 →
    natDigitsAux f1 n = natDigitsAux f2 n := by
  induction f1 with
  | zero => intro f2 n h1 _; omega
  | succ f1 ih =>
    intro f2 n h1 h2
    cases f2 with
    | zero => omega
    | succ f2 =>
      rw [natDigitsAux, natDigitsAux]
      by_cases h : n < 10
      · rw [if_pos h, if_pos h]
      · rw [if_neg h, if_neg h]
        have hd : n / 10 < n := Nat.div_lt_self (by omega) (by omega)
        rw [ih f2 (n / 10) (by omega) (by omega)]

/-- The recurrence the fuel realizes. -/
theorem natDigits_unfold (n : Nat) :
    natDigits n = if n < 10 then [digitChar n]
      else natDigits (n / 10) ++ [digitChar (n % 10)] := by
  rw [natDigits, natDigitsAux]
  by_cases h : n < 10
  · rw [if_pos h, if_pos h]
  · rw [if_neg h, if_neg h]
    have hd : n / 10 < n := Nat.div_lt_self (by omega) (by omega)
    rw [natDigits, natDigitsAux_eq n (n / 10 + 1) (n / 10) (by omega) (by omega)]

theorem natDigits_ne_nil (n : Nat) : natDigits n ≠ [] := by
  rw [natDigits_unfold]
  by_cases h : n < 10
  · rw [if_pos h]
    simp
  · rw [if_neg h]
    simp

theorem digitChar_ne_slash (k : Nat) : digitChar k ≠ '/' := by
  unfold digitChar
  split <;> decide

theorem slash_not_mem_natDigits (n : Nat) : '/' ∉ natDigits n := by
  induction n using Nat.strong_induction_on with
  | _ n ih =>
    rw [natDigits_unfold]
    by_cases h : n < 10
    · rw [if_pos h]
      simp only [List.mem_singleton]
      exact fun he => digitChar_ne_slash n he.symm
    · rw [if_neg h]
      intro hm
      rcases List.mem_append.mp hm with hm | hm
      · exact ih (n / 10) (Nat.div_lt_self (by omega) (by omega)) hm
      · simp only [List.mem_singleton] at hm
        exact digitChar_ne_slash (n % 10) hm.symm

theorem digitChar_inj : ∀ a < 10, ∀ b < 10, digitChar a = digitChar b → a = b := by
  decide

theorem natDigits_inj : ∀ m n : Nat, natDigits m = natDigits n → m = n := by
  intro m
  induction m using Nat.strong_induction_on with
  | _ m ih =>
    intro n h
    rw [natDigits_unfold m, natDigits_unfold n] at h
    by_cases hm : m < 10 <;> by_cases hn : n < 10
    · rw [if_pos hm, if_pos hn] at h
      injection h with h1 _
      exact digitChar_inj m hm n hn h1
    · rw [if_pos hm, if_neg hn] at h
      have hl := congrArg List.length h
      simp only [List.length_singleton, List.length_append, List.length_cons,
        List.length_nil] at hl
      have h0 : natDigits (n / 10) = [] := List.eq_nil_of_length_eq_zero (by omega)
      exact absurd h0 (natDigits_ne_nil _)
    · rw [if_neg hm, if_pos hn] at h
      have hl := congrArg List.length h
      simp only [List.length_singleton, List.length_append, List.length_cons,
        List.length_nil] at hl
      have h0 : natDigits (m / 10) = [] := List.eq_nil_of_length_eq_zero (by omega)
      exact absurd h0 (natDigits_ne_nil _)
    · rw [if_neg hm, if_neg hn] at h
      have hsplit := List.append_inj' h rfl
      have h1 : m / 10 = n / 10 :=
        ih (m / 10) (Nat.div_lt_self (by omega) (by omega)) (n / 10) hsplit.1
      have h2 : m % 10 = n % 10 := by
        have := hsplit.2
        simp only [List.cons.injEq] at this
        exact digitChar_inj (m % 10) (Nat.mod_lt _ (by omega)) (n % 10)
          (Nat.mod_lt _ (by omega)) this.1
      omega

/-- Splitting at a separator character absent on both sides of it. -/
theorem sep_split : ∀ xs xs' ys ys' : List Char, '/' ∉ xs → '/' ∉ xs' →
    xs ++ '/' :: ys = xs' ++ '/' :: ys' → xs = xs' ∧ ys = ys' := by
  intro xs
  induction xs with
  | nil =>
    intro xs' ys ys' _ hx' h
    cases xs' with
    | nil => simpa using h
    | cons a l =>
      simp only [List.nil_append, List.cons_append, List.cons.injEq] at h
      exact absurd (by rw [← h.1]; exact List.mem_cons_self _ _) hx'
  | cons a l ih =>
    intro xs' ys ys' hx hx' h
    cases xs' with
    | nil =>
      simp only [List.cons_append, List.nil_append, List.cons.injEq] at h
      exact absurd (by rw [h.1]; exact List.mem_cons_self _ _) hx
    | cons a' l' =>
      simp only [List.cons_append, List.cons.injEq] at h
      obtain ⟨rfl, h2⟩ := h
      have := ih l' ys ys' (fun hm => hx (List.mem_cons.mpr (Or.inr hm)))
        (fun hm => hx' (List.mem_cons.mpr (Or.inr hm))) h2
      exact ⟨by rw [this.1], this.2⟩

/-- The `year/month/day` rendering of a day triple. -/
def dayStr (t : Nat × Nat × Nat) : String :=
  String.mk (natDigits t.1 ++ '/' :: natDigits t.2.1 ++ '/' :: natDigits t.2.2)

theorem dateStr_eq_dayStr (d : DateTime) : dateStr d = dayStr (dayT d) := rfl

/-- Distinct calendar days render to distinct date keys. -/
theorem dayStr_inj {t1 t2 : Nat × Nat × Nat} (h : dayStr t1 = dayStr t2) : t1 = t2 := by
  rw [dayStr, dayStr] at h
  have hl : natDigits t1.1 ++ '/' :: (natDigits t1.2.1 ++ '/' :: natDigits t1.2.2) =
      natDigits t2.1 ++ '/' :: (natDigits t2.2.1 ++ '/' :: natDigits t2.2.2) := by
    have := congrArg String.data h
    simpa using this
  obtain ⟨e1, e2⟩ := sep_split _ _ _ _ (slash_not_mem_natDigits t1.1)
    (slash_not_mem_natDigits t2.1) hl
  obtain ⟨e3, e4⟩ := sep_split _ _ _ _ (slash_not_mem_natDigits t1.2.1)
    (slash_not_mem_natDigits t2.2.1) e2
  obtain ⟨a1, a2, a3⟩ := t1
  obtain ⟨b1, b2, b3⟩ := t2
  simp only at e1 e3 e4
  rw [natDigits_inj a1 b1 e1, natDigits_inj a2 b2 e3, natDigits_inj a3 b3 e4]

theorem dayLE_iff (a b : Nat × Nat × Nat) : dayLE a b = true ↔
    (a.1 < b.1 ∨ (a.1 = b.1 ∧ (a.2.1 < b.2.1 ∨ (a.2.1 = b.2.1 ∧ a.2.2 ≤ b.2.2)))) := by
  rw [dayLE]
  simp

theorem dtLE_dayLE {a b : DateTime} (h : dtLE a b = true) :
    dayLE (dayT a) (dayT b) = true := by
  rw [dtLE] at h
  simp only [Bool.or_eq_true, Bool.and_eq_true, decide_eq_true_eq, beq_iff_eq] at h
  rw [dayLE_iff, dayT, dayT]
  simp only
  omega

theorem dayLE_refl (a : Nat × Nat × Nat) : dayLE a a = true := by
  rw [dayLE_iff]
  omega

theorem dayLE_asymm {a b : Nat × Nat × Nat} (hab : dayLE a b = true) (hne : a ≠ b) :
    dayLE b a = false := by
  cases hba : dayLE b a
  · rfl
  · exfalso
    obtain ⟨a1, a2, a3⟩ := a
    obtain ⟨b1, b2, b3⟩ := b
    rw [dayLE_iff] at hab hba
    have hne' : ¬ (a1 = b1 ∧ a2 = b2 ∧ a3 = b3) := fun he =>
      hne (by rw [he.1, he.2.1, he.2.2])
    dsimp only at hab hba
    omega

/-- The timeline entry with the given date key, as the linear scan finds it. -/
def findDate (ds : List DateEntry) (s : String) : Option DateEntry :=
  ds.find? (fun e => e.date == s)

theorem findDate_cons (e : DateEntry) (ds : List DateEntry) (s : String) :
    findDate (e :: ds) s = if e.date = s then some e else findDate ds s := by
  rw [findDate, List.find?]
  by_cases h : e.date = s
  · have hb : (e.date == s) = true := by simpa using h
    rw [hb, if_pos h]
  · have hb : (e.date == s) = false := by simpa using h
    rw [hb, if_neg h]
    rfl

/-- How one timeline step changes what `findDate` sees. -/
theorem findDate_addGraphDate (ds : List DateEntry) (s s' : String) (n : Nat) :
    findDate (addGraphDate s n ds) s' =
      if s' = s then
        some (match findDate ds s with
          | some e => { date := e.date, count := n, countDay := e.countDay + 1 }
          | none => { date := s, count := n, countDay := 1 })
      else findDate ds s' := by
  induction ds with
  | nil =>
    by_cases h : s' = s
    · subst h
      simp [addGraphDate, findDate]
    · have h' : ¬ (s = s') := fun he => h he.symm
      simp [addGraphDate, findDate, h, h']
  | cons e ds ih =>
    simp only [addGraphDate]
    by_cases hes : e.date = s
    · rw [if_pos hes]
      by_cases h : s' = s
      · subst h
        simp [findDate_cons, hes]
      · have hes' : ¬ (e.date = s') := fun he => h (by rw [← he, hes])
        have hss' : ¬ (s = s') := fun he => h he.symm
        simp [findDate_cons, h, hes', hes, hss']
    · rw [if_neg hes]
      by_cases hes' : e.date = s'
      · have h : ¬ (s' = s) := fun he => hes (by rw [hes']; exact he)
        simp [findDate_cons, hes, hes', h]
      · simp [findDate_cons, hes, hes', ih]

/-- One timeline step either keeps the date-key list or appends the new key. -/
theorem dates_addGraphDate (ds : List DateEntry) (s : String) (n : Nat) :
    (addGraphDate s n ds).map (fun e => e.date) =
      if (findDate ds s).isSome then ds.map (fun e => e.date)
      else ds.map (fun e => e.date) ++ [s] := by
  induction ds with
  | nil => simp [addGraphDate, findDate]
  | cons e ds ih =>
    simp only [addGraphDate]
    by_cases hes : e.date = s
    · rw [if_pos hes, findDate_cons, if_pos hes]
      simp
    · rw [if_neg hes, findDate_cons, if_neg hes]
      simp only [List.map_cons]
      rw [ih]
      by_cases h : (findDate ds s).isSome
      · rw [if_pos h, if_pos h]
      · rw [if_neg h, if_neg h]
        simp

theorem mem_dates_iff (ds : List DateEntry) (s : String) :
    s ∈ ds.map (fun e => e.date) ↔ (findDate ds s).isSome := by
  rw [findDate, List.find?_isSome]
  simp

/-- Within a duplicate-free timeline, every entry is what `findDate` returns at its
own date key. -/
theorem findDate_of_mem {ds : List DateEntry}
    (h : (ds.map (fun e => e.date)).Nodup) {e : DateEntry} (he : e ∈ ds) :
    findDate ds e.date = some e := by
  induction ds with
  | nil => cases he
  | cons a ds ih =>
    have h' : a.date ∉ ds.map (fun e => e.date) ∧ (ds.map (fun e => e.date)).Nodup := by
      rw [List.map_cons, List.nodup_cons] at h
      exact h
    rcases List.mem_cons.mp he with rfl | he'
    · simp [findDate, List.find?]
    · have hne : ¬ (a.date = e.date) := fun hd =>
        h'.1 (hd ▸ List.mem_map_of_mem (fun e => e.date) he')
      rw [findDate_cons, if_neg hne]
      exact ih h'.2 he'

/-- The timeline fold's running counter is the number of checkins consumed. -/
theorem graph_foldl_sum (cs : List AggCheckin) (ds : List DateEntry) (n : Nat) :
    (cs.foldl (fun acc c => (addGraphDate (dateStr c.first_had) (acc.2 + 1) acc.1, acc.2 + 1))
      (ds, n)).2 = n + cs.length := by
  induction cs generalizing ds n with
  | nil => simp
  | cons c cs ih =>
    rw [List.foldl_cons, ih]
    simp
    omega

/-- One more checkin extends the timeline by one scan step carrying the new
cumulative total. -/
theorem graphDates_snoc (cs : List AggCheckin) (c : AggCheckin) :
    graphDates (cs ++ [c]) =
      addGraphDate (dateStr c.first_had) (cs.length + 1) (graphDates cs) := by
  rw [graphDates, graphDates, List.foldl_append, List.foldl_cons, List.foldl_nil]
  set r := List.foldl
    (fun acc c => (addGraphDate (dateStr c.first_had) (acc.2 + 1) acc.1, acc.2 + 1))
    (([] : List DateEntry), 0) cs with hr
  have hs : r.2 = cs.length := by
    rw [hr]
    simpa using graph_foldl_sum cs [] 0
  dsimp only
  rw [hs]

/-- The timeline of a `first_had`-sorted checkin list: one entry per distinct
calendar day, the entry's count the number of checkins up to and including that day,
its countDay the number of checkins strictly on that day. -/
theorem graphDates_sorted_spec :
    ∀ cs : List AggCheckin,
      List.Pairwise (fun a b => dtLE a.first_had b.first_had = true) cs →
      ((graphDates cs).map (fun e => e.date)).Nodup ∧
      (∀ s : String, s ∈ (graphDates cs).map (fun e => e.date) ↔
        ∃ c ∈ cs, dateStr c.first_had = s) ∧
      (∀ e ∈ graphDates cs, ∃ t : Nat × Nat × Nat,
        t ∈ cs.map (fun c => dayT c.first_had) ∧
        e.date = dayStr t ∧
        e.count = cs.countP (fun c => dayLE (dayT c.first_had) t) ∧
        e.countDay = cs.countP (fun c => dayT c.first_had == t)) := by
  intro cs
  induction cs using List.reverseRecOn with
  | nil =>
    intro _
    refine ⟨by simp [graphDates], ?_, ?_⟩
    · intro s
      simp [graphDates]
    · intro e he
      simp [graphDates] at he
  | append_singleton cs c ih =>
    intro hp
    obtain ⟨h1, _, hall0⟩ := List.pairwise_append.mp hp
    have hall : ∀ x ∈ cs, dtLE x.first_had c.first_had = true := fun x hx =>
      hall0 x hx c (List.mem_singleton_self c)
    obtain ⟨ihN, ihM, ihE⟩ := ih h1
    have hdayall : ∀ x ∈ cs, dayLE (dayT x.first_had) (dayT c.first_had) = true :=
      fun x hx => dtLE_dayLE (hall x hx)
    rw [graphDates_snoc]
    set s := dateStr c.first_had with hs_def
    set out := graphDates cs with hout
    set t := dayT c.first_had with ht_def
    have hst : s = dayStr t := dateStr_eq_dayStr c.first_had
    have hN : ((addGraphDate s (cs.length + 1) out).map (fun e => e.date)).Nodup := by
      rw [dates_addGraphDate]
      by_cases hfs : (findDate out s).isSome
      · rw [if_pos hfs]
        exact ihN
      · rw [if_neg hfs, ← List.concat_eq_append]
        exact List.Nodup.concat (fun hm => hfs ((mem_dates_iff out s).mp hm)) ihN
    refine ⟨hN, ?_, ?_⟩
    · intro s'
      rw [dates_addGraphDate]
      by_cases hfs : (findDate out s).isSome
      · rw [if_pos hfs, ihM s']
        constructor
        · rintro ⟨x, hx, he⟩
          exact ⟨x, List.mem_append_left _ hx, he⟩
        · rintro ⟨x, hx, he⟩
          rcases List.mem_append.mp hx with hx | hx
          · exact ⟨x, hx, he⟩
          · rw [List.mem_singleton] at hx
            subst hx
            have hmem : s ∈ out.map (fun e => e.date) := (mem_dates_iff out s).mpr hfs
            have h2 := (ihM s).mp hmem
            rw [← he]
            exact h2
      · rw [if_neg hfs, List.mem_append, ihM s', List.mem_singleton]
        constructor
        · rintro (⟨x, hx, he⟩ | rfl)
          · exact ⟨x, List.mem_append_left _ hx, he⟩
          · exact ⟨c, List.mem_append_right _ (List.mem_singleton_self c), rfl⟩
        · rintro ⟨x, hx, he⟩
          rcases List.mem_append.mp hx with hx | hx
          · exact Or.inl ⟨x, hx, he⟩
          · rw [List.mem_singleton] at hx
            subst hx
            exact Or.inr he.symm
    · intro e he
      have hfe : findDate (addGraphDate s (cs.length + 1) out) e.date = some e :=
        findDate_of_mem hN he
      rw [findDate_addGraphDate] at hfe
      by_cases hd : e.date = s
      · rw [if_pos hd] at hfe
        have hcmem : t ∈ (cs ++ [c]).map (fun x => dayT x.first_had) := by
          rw [List.map_append]
          apply List.mem_append_right
          simp [ht_def]
        have hcount : (cs ++ [c]).countP (fun x => dayLE (dayT x.first_had) t) =
            cs.length + 1 := by
          rw [List.countP_append]
          have hc1 : cs.countP (fun x => dayLE (dayT x.first_had) t) = cs.length :=
            List.countP_eq_length.mpr (fun x hx => hdayall x hx)
          have hc2 : ([c] : List AggCheckin).countP
              (fun x => dayLE (dayT x.first_had) t) = 1 := by
            simp [List.countP_cons, dayLE_refl]
          rw [hc1, hc2]
        refine ⟨t, hcmem, by rw [hd, hst], ?_, ?_⟩
        · rw [hcount]
          rcases hmatch : findDate out s with _ | e0 <;> rw [hmatch] at hfe <;>
            injection hfe with hfe <;> rw [← hfe]
        · rcases hmatch : findDate out s with _ | e0
          · rw [hmatch] at hfe
            injection hfe with hfe
            have hzero : cs.countP (fun x => dayT x.first_had == t) = 0 := by
              rw [List.countP_eq_zero]
              intro x hx hxt
              have hxd : dateStr x.first_had = s := by
                rw [dateStr_eq_dayStr, show dayT x.first_had = t by simpa using hxt, hst]
              have hmem : s ∈ out.map (fun e => e.date) := (ihM s).mpr ⟨x, hx, hxd⟩
              rw [mem_dates_iff, hmatch] at hmem
              simp at hmem
            rw [List.countP_append, hzero, ← hfe]
            simp [List.countP_cons]
          · rw [hmatch] at hfe
            injection hfe with hfe
            have he0 : e0 ∈ out := List.mem_of_find?_eq_some hmatch
            have he0date : e0.date = s := by
              have := List.find?_some hmatch
              simpa using this
            obtain ⟨t0, _, ht0date, _, ht0cd⟩ := ihE e0 he0
            have htt0 : t0 = t := by
              apply dayStr_inj
              rw [← ht0date, he0date, hst]
            rw [← hfe]
            dsimp only
            rw [ht0cd, htt0, List.countP_append]
            simp [List.countP_cons]
      · rw [if_neg hd] at hfe
        have heo : e ∈ out := List.mem_of_find?_eq_some hfe
        obtain ⟨t0, ht0mem, ht0date, ht0count, ht0cd⟩ := ihE e heo
        have htne : t0 ≠ t := fun he' => hd (by rw [ht0date, he', ← hst])
        have hlt : dayLE t t0 = false := by
          obtain ⟨x, hx, hxt⟩ := List.mem_map.mp ht0mem
          have hx0 := hdayall x hx
          rw [hxt] at hx0
          exact dayLE_asymm hx0 htne
        refine ⟨t0, by rw [List.map_append]; exact List.mem_append_left _ ht0mem,
          ht0date, ?_, ?_⟩
        · rw [List.countP_append, ht0count]
          have hc2 : ([c] : List AggCheckin).countP
              (fun x => dayLE (dayT x.first_had) t0) = 0 := by
            simp [List.countP_cons, hlt]
          rw [hc2]
          omega
        · rw [List.countP_append, ht0cd]
          have hbeq : (dayT c.first_had == t0) = false := by
            simpa using fun he' : dayT c.first_had = t0 => htne he'.symm
          have hc2 : ([c] : List AggCheckin).countP
              (fun x => dayT x.first_had == t0) = 0 := by
            simp [List.countP_cons, hbeq]
          rw [hc2]
          omega

/-- C9: over checkins sorted ascending by `first_had`, the timeline holds exactly
one entry per distinct calendar day; an entry's count is the cumulative number of
checkins on or before its day and its countDay the number strictly on its day; two
checkins on 2024-01-01 followed by one on 2024-01-02 yield
`[{date := "2024/1/1", count := 2, countDay := 2},
  {date := "2024/1/2", count := 3, countDay := 1}]`. -/
theorem timeline_spec :
    (∀ cs : List AggCheckin,
      List.Pairwise (fun a b => dtLE a.first_had b.first_had = true) cs →
      ((graphDates cs).map (fun e => e.date)).Nodup ∧
      (∀ s : String, s ∈ (graphDates cs).map (fun e => e.date) ↔
        ∃ c ∈ cs, dateStr c.first_had = s) ∧
      (∀ e ∈ graphDates cs, ∃ t : Nat × Nat × Nat,
        t ∈ cs.map (fun c => dayT c.first_had) ∧
        e.date = dayStr t ∧
        e.count = cs.countP (fun c => dayLE (dayT c.first_had) t) ∧
        e.countDay = cs.countP (fun c => dayT c.first_had == t))) ∧
    graphDates
      [{ first_had := { year := 2024, month := 1, day := 1, hour := 10, minute := 0,
                        second := 0 }, rating := 4, country := "Norway" },
       { first_had := { year := 2024, month := 1, day := 1, hour := 12, minute := 0,
                        second := 0 }, rating := 0, country := "Norway" },
       { first_had := { year := 2024, month := 1, day := 2, hour := 9, minute := 0,
                        second := 0 }, rating := 3, country := "Norway" }] =
      [{ date := "2024/1/1", count := 2, countDay := 2 },
       { date := "2024/1/2", count := 3, countDay := 1 }] :=
  ⟨graphDates_sorted_spec, by decide⟩

/-- C9 witness: the sortedness hypothesis discharged on the three-checkin example. -/
theorem timeline_spec_witness :
    ((graphDates
      [{ first_had := { year := 2024, month := 1, day := 1, hour := 10, minute := 0,
                        second := 0 }, rating := 4, country := "Norway" },
       { first_had := { year := 2024, month := 1, day := 1, hour := 12, minute := 0,
                        second := 0 }, rating := 0, country := "Norway" },
       { first_had := { year := 2024, month := 1, day := 2, hour := 9, minute := 0,
                        second := 0 }, rating := 3, country := "Norway" }]).map
        (fun e => e.date)).Nodup :=
  (timeline_spec.1
    [{ first_had := { year := 2024, month := 1, day := 1, hour := 10, minute := 0,
                      second := 0 }, rating := 4, country := "Norway" },
     { first_had := { year := 2024, month := 1, day := 1, hour := 12, minute := 0,
                      second := 0 }, rating := 0, country := "Norway" },
     { first_had := { year := 2024, month := 1, day := 2, hour := 9, minute := 0,
                      second := 0 }, rating := 3, country := "Norway" }]
    (by decide)).1

end Meadstats
